import Mathlib

/-! # Eumostro chaincode: the Lot registry

A shallow embedding of `src/go/eumostrochaincode.go` (a Hyperledger Fabric
contract with the operations `InitLedger`, `CreateAsset`, `ReadAsset`,
`AssetExists`, `TransferAsset`, `GetAllAssets`) together with the part of
Go's `encoding/json` the contract relies on.

Conventions of the embedding

* A Go `string` is a `GoString`, a sequence of bytes that need not be valid
  UTF-8; a string literal of the source is `go "..."`, its UTF-8 bytes.
  The encoder reads a string as a `range` loop does and writes the escape
  of U+FFFD for each byte that is not part of valid UTF-8.
* A Go `[]byte` is `Bytes`, a sequence of bytes as well.  The encoder builds
  its text code point by code point and returns the UTF-8 bytes of the
  text.  The decoder reads the bytes as code points too, U+FFFD standing
  for each byte that is not part of valid UTF-8: inside a string literal
  that is what `encoding/json` stores for such a byte, and anywhere else the
  scanner rejects U+FFFD as it rejects the byte.
* A Go `int` is a 64-bit integer, `GoInt`.
* A Go `error` is `Option GoError` (`none` is `nil`), a Go `*Lot` is
  `Option Lot` (`none` is `nil`); a function returning several values
  returns a tuple, followed by the stub after the call.
* The ledger is a `Stub`: the stored pairs in key order, and for each kind of
  call what makes it fail.  A call that fails writes nothing.  A call that
  follows another one runs on the stub the first one returned.
* The encoder follows the current `encoding/json` (`\b` and `\f` are written
  as such); the decoder reads every text the scanner of `encoding/json`
  accepts.  The fuel of the parser, one more than the length of the text,
  is not exhausted on any text (`parseJSON_iff`, `unquote_fuel`).
* The source does not build as written.  Three places are read as follows:
  `CreateAsset` uses `id`, which is not declared: it is read as the
  parameter `ID`;  the field `Lot.OwnerId` is declared `string` while
  `CreateAsset` and `TransferAsset` assign an `int` to it: the field is read
  as `int`;  the parameter list of `TransferAsset` lacks its final comma.
-/

namespace Eumostro

/-! ## Go values -/

/-- Smallest value of a 64-bit Go `int`. -/
def minInt64 : Int := -9223372036854775808

/-- Largest value of a 64-bit Go `int`. -/
def maxInt64 : Int := 9223372036854775807

/-- A Go `int` on a 64-bit platform. -/
abbrev GoInt := { n : Int // minInt64 ≤ n ∧ n ≤ maxInt64 }

/-- The zero value of `int`. -/
def GoInt.zero : GoInt := ⟨0, by decide⟩

/-- One byte of a Go `string`. -/
abbrev Byte := Fin 256

/-- A Go `string`: any sequence of bytes, valid UTF-8 or not. -/
abbrev GoString := List Byte

/-- The byte with the given value. -/
def byte (n : Nat) : Byte := ⟨n % 256, Nat.mod_lt n (by decide)⟩

/-- The UTF-8 encoding of a code point (`utf8.EncodeRune`). -/
def utf8EncodeChar (c : Char) : List Byte :=
  if c.toNat < 128 then [byte c.toNat]
  else if c.toNat < 2048 then [byte (192 + c.toNat / 64), byte (128 + c.toNat % 64)]
  else if c.toNat < 65536 then
    [byte (224 + c.toNat / 4096), byte (128 + c.toNat / 64 % 64), byte (128 + c.toNat % 64)]
  else
    [byte (240 + c.toNat / 262144), byte (128 + c.toNat / 4096 % 64),
      byte (128 + c.toNat / 64 % 64), byte (128 + c.toNat % 64)]

/-- The UTF-8 encoding of a sequence of code points. -/
def utf8Encode : List Char → GoString
  | [] => []
  | c :: cs => utf8EncodeChar c ++ utf8Encode cs

/-- The Go string a string literal of the source denotes: its UTF-8 bytes. -/
def go (s : String) : GoString := utf8Encode s.data

/-- True for a continuation byte, `80`..`BF`. -/
def isCont (b : Byte) : Bool := decide (128 ≤ b.val) && decide (b.val ≤ 191)

/-- The function `utf8.DecodeRune`: the code point at the start of the bytes and the
number of bytes it takes, or nothing when the first byte does not start a
valid encoding (Go then yields `RuneError` with width 1). Over-long forms,
surrogates and values above U+10FFFF are not valid. -/
def decodeRune : List Byte → Option (Char × Nat)
  | [] => none
  | b0 :: rest =>
    if b0.val < 128 then some (Char.ofNat b0.val, 1)
    else if 194 ≤ b0.val ∧ b0.val ≤ 223 then
      match rest with
      | b1 :: _ =>
        if isCont b1 then some (Char.ofNat ((b0.val - 192) * 64 + (b1.val - 128)), 2) else none
      | [] => none
    else if 224 ≤ b0.val ∧ b0.val ≤ 239 then
      match rest with
      | b1 :: b2 :: _ =>
        if (if b0.val = 224 then 160 else 128) ≤ b1.val ∧
            b1.val ≤ (if b0.val = 237 then 159 else 191) ∧ isCont b2 then
          some (Char.ofNat ((b0.val - 224) * 4096 + (b1.val - 128) * 64 + (b2.val - 128)), 3)
        else none
      | _ => none
    else if 240 ≤ b0.val ∧ b0.val ≤ 244 then
      match rest with
      | b1 :: b2 :: b3 :: _ =>
        if (if b0.val = 240 then 144 else 128) ≤ b1.val ∧
            b1.val ≤ (if b0.val = 244 then 143 else 191) ∧ isCont b2 ∧ isCont b3 then
          some (Char.ofNat ((b0.val - 240) * 262144 + (b1.val - 128) * 4096
            + (b2.val - 128) * 64 + (b3.val - 128)), 4)
        else none
      | _ => none
    else none

/-- The string as a `range` loop reads it, `fuel` bounding the number of
steps: its code points in order, with `none` for each byte that is not
part of a valid encoding. -/
def decodeRunes : Nat → List Byte → List (Option Char)
  | 0, _ => []
  | _ + 1, [] => []
  | fuel + 1, b :: rest =>
    match decodeRune (b :: rest) with
    | some (c, n) => some c :: decodeRunes fuel (rest.drop (n - 1))
    | none => none :: decodeRunes fuel rest

/-- The code points and the invalid bytes of a Go string, in order. -/
def runes (s : GoString) : List (Option Char) := decodeRunes s.length s

/-- The code point U+FFFD, `utf8.RuneError`. -/
def runeError : Char := Char.ofNat 65533

/-- The code points of a Go string, U+FFFD standing for each byte that is not
part of valid UTF-8. -/
def validChars (s : GoString) : List Char := (runes s).map (fun r => r.getD runeError)

/-- The function `utf8.ValidString`: every byte of the string is part of valid UTF-8. -/
def validString (s : GoString) : Bool := (runes s).all (fun r => r.isSome)

/-- The string with each byte that is not part of valid UTF-8 replaced by the
three bytes of U+FFFD; a string that is valid UTF-8 is left as it is. -/
def toValid (s : GoString) : GoString := utf8Encode (validChars s)

/-- A Go `[]byte`. -/
abbrev Bytes := List Byte

/-- Errors of `encoding/json`. -/
inductive JsonError where
  /-- A `*json.SyntaxError`: the text is not a JSON value. -/
  | syntaxError
  /-- A `*json.UnmarshalTypeError`: a JSON value of kind `value` does not fit the Go field `field`. -/
  | unmarshalType (value : String) (field : String)
  deriving DecidableEq, Repr

/-- An error returned by a call on the ledger stub, with its message. -/
structure StubError where
  msg : GoString
  deriving DecidableEq, Repr

/-- A Go `error` value. -/
inductive GoError where
  /-- An error of the ledger stub, handed on as it is. -/
  | stub (e : StubError)
  /-- An error built by `fmt.Errorf`, with its formatted message. -/
  | errorf (msg : GoString)
  /-- An error returned by `encoding/json`. -/
  | json (e : JsonError)
  /-- A run-time panic, which aborts the invocation. -/
  | panic (msg : GoString)
  deriving DecidableEq, Repr

/-! ## Data model (source lines 14-31) -/

/-- The struct `LotProduct`. -/
structure LotProduct where
  name : GoString
  quantity : GoInt
  unitValue : GoInt
  unit : GoString
  deriving DecidableEq, Repr

/-- The struct `Lot`. -/
structure Lot where
  ID : GoString
  nfId : GoString
  lotProducts : List LotProduct
  Owner : GoString
  OwnerId : GoInt
  lotType : GoString
  createdAt : GoString
  total : GoInt
  formatedAddress : GoString
  deriving DecidableEq, Repr

/-- The zero value of `Lot`, what `var asset Lot` declares. -/
def Lot.zero : Lot :=
  { ID := [], nfId := [], lotProducts := [], Owner := [], OwnerId := GoInt.zero,
    lotType := [], createdAt := [], total := GoInt.zero, formatedAddress := [] }

/-! ## `encoding/json`: encoding a `Lot` -/

/-- The double quote. -/
def dquote : Char := Char.ofNat 34

/-- The backslash. -/
def backslash : Char := Char.ofNat 92

/-- The digit `hex[n]` of `"0123456789abcdef"`. -/
def hexDigit (n : Nat) : Char :=
  if n < 10 then Char.ofNat (48 + n) else Char.ofNat (87 + n)

/-- The bytes `appendString` (with HTML escaping, as `json.Marshal` sets it)
writes for one code point of a string. -/
def escapeChar (c : Char) : List Char :=
  if c = dquote ∨ c = backslash then [backslash, c]
  else if c.toNat = 8 then [backslash, 'b']
  else if c.toNat = 12 then [backslash, 'f']
  else if c.toNat = 10 then [backslash, 'n']
  else if c.toNat = 13 then [backslash, 'r']
  else if c.toNat = 9 then [backslash, 't']
  else if c.toNat < 32 ∨ c = '<' ∨ c = '>' ∨ c = '&' then
    [backslash, 'u', '0', '0', hexDigit (c.toNat / 16), hexDigit (c.toNat % 16)]
  else if c.toNat = 8232 ∨ c.toNat = 8233 then
    [backslash, 'u', '2', '0', '2', hexDigit (c.toNat % 16)]
  else [c]

/-- The bytes `appendString` writes for one step of its loop over a string: a
code point is written by `escapeChar`; a byte that is not part of valid
UTF-8 is written as the six characters `\ufffd`. -/
def escapeRune : Option Char → List Char
  | some c => escapeChar c
  | none => [backslash, 'u', 'f', 'f', 'f', 'd']

/-- The escaped body of a string, without the enclosing quotes. -/
def escapeRunes : List (Option Char) → List Char
  | [] => []
  | r :: rs => escapeRune r ++ escapeRunes rs

/-- A Go string as a JSON string literal. -/
def encodeString (s : GoString) : List Char :=
  dquote :: (escapeRunes (runes s) ++ [dquote])

/-- The decimal digits of a natural number, most significant first; `fuel`
bounds the number of digits. -/
def natDigits : Nat → Nat → List Char
  | 0, n => [Char.ofNat (48 + n % 10)]
  | fuel + 1, n =>
    if n < 10 then [Char.ofNat (48 + n)]
    else natDigits fuel (n / 10) ++ [Char.ofNat (48 + n % 10)]

/-- The text `strconv.AppendInt(_, n, 10)` writes for a Go `int`. -/
def encodeInt (n : GoInt) : List Char :=
  if n.val < 0 then '-' :: natDigits 19 n.val.natAbs else natDigits 19 n.val.natAbs

/-- The text `json.Marshal` writes for a `Lot`. Only the exported fields `ID`, `Owner`
and `OwnerId` are written, under the names of their tags and in
declaration order; the fields whose Go name starts with a
lower-case letter are not exported and are skipped by the encoder. -/
def marshalText (asset : Lot) : List Char :=
  "\x7b".data ++ encodeString (go "ID") ++ ":".data ++ encodeString asset.ID
    ++ ",".data ++ encodeString (go "owner") ++ ":".data ++ encodeString asset.Owner
    ++ ",".data ++ encodeString (go "ownerId") ++ ":".data ++ encodeInt asset.OwnerId
    ++ "\x7d".data

/-- The function `json.Marshal` on a `Lot`: the bytes of the text, and no error. -/
def jsonMarshal (asset : Lot) : Bytes × Option GoError :=
  (utf8Encode (marshalText asset), none)

/-! ## `encoding/json`: reading JSON text -/

/-- A parsed JSON value. A number keeps its literal text. -/
inductive JSON where
  | null
  | bool (b : Bool)
  | num (lit : List Char)
  | str (s : List Char)
  | arr (elems : List JSON)
  | obj (members : List (List Char × JSON))

/-- The scanner's `isSpace`: space, tab, carriage return, line feed. -/
def isSpace (c : Char) : Bool :=
  c.toNat = 32 || c.toNat = 9 || c.toNat = 13 || c.toNat = 10

/-- Skips leading white space. -/
def skipSpace : List Char → List Char
  | [] => []
  | c :: cs => if isSpace c then skipSpace cs else c :: cs

/-- True for `0`..`9`. -/
def isDigit (c : Char) : Bool := decide (48 ≤ c.toNat) && decide (c.toNat ≤ 57)

/-- The value of a hexadecimal digit, of either case. -/
def hexVal (c : Char) : Option Nat :=
  if 48 ≤ c.toNat ∧ c.toNat ≤ 57 then some (c.toNat - 48)
  else if 97 ≤ c.toNat ∧ c.toNat ≤ 102 then some (c.toNat - 87)
  else if 65 ≤ c.toNat ∧ c.toNat ≤ 70 then some (c.toNat - 55)
  else none

/-- The function `getu4`: the value of a leading `\uXXXX`, if the text starts with one. -/
def getu4 : List Char → Option Nat
  | b :: u :: x1 :: x2 :: x3 :: x4 :: _ =>
    if b = backslash ∧ u = 'u' then
      match hexVal x1, hexVal x2, hexVal x3, hexVal x4 with
      | some h1, some h2, some h3, some h4 => some (((h1 * 16 + h2) * 16 + h3) * 16 + h4)
      | _, _, _, _ => none
    else none
  | _ => none

/-- The character a one-letter escape stands for. -/
def simpleEscape (e : Char) : Option Char :=
  if e = dquote ∨ e = backslash ∨ e = '/' then some e
  else if e = 'b' then some (Char.ofNat 8)
  else if e = 'f' then some (Char.ofNat 12)
  else if e = 'n' then some (Char.ofNat 10)
  else if e = 'r' then some (Char.ofNat 13)
  else if e = 't' then some (Char.ofNat 9)
  else none

/-- Reads the body of a string literal up to and including its closing quote
(the scanner's `stateInString` together with `unquote`): returns the
decoded string and the text after the quote. A `\uXXXX` that is a high
surrogate followed by a `\uXXXX` low surrogate is one code point; any other
surrogate becomes U+FFFD. -/
def unquote : Nat → List Char → List Char → Option (List Char × List Char)
  | 0, _, _ => none
  | _ + 1, _, [] => none
  | fuel + 1, acc, c :: cs =>
    if c = dquote then some (acc, cs)
    else if c = backslash then
      match cs with
      | [] => none
      | e :: cs1 =>
        if e = 'u' then
          match getu4 (c :: cs) with
          | none => none
          | some v =>
            if 55296 ≤ v ∧ v < 57344 then
              match getu4 (cs1.drop 4) with
              | some w =>
                if v < 56320 ∧ 56320 ≤ w ∧ w < 57344 then
                  unquote fuel
                    (acc ++ [Char.ofNat (65536 + (v - 55296) * 1024 + (w - 56320))])
                    (cs1.drop 10)
                else unquote fuel (acc ++ [Char.ofNat 65533]) (cs1.drop 4)
              | none => unquote fuel (acc ++ [Char.ofNat 65533]) (cs1.drop 4)
            else unquote fuel (acc ++ [Char.ofNat v]) (cs1.drop 4)
        else
          match simpleEscape e with
          | some d => unquote fuel (acc ++ [d]) cs1
          | none => none
    else if c.toNat < 32 then none
    else unquote fuel (acc ++ [c]) cs

/-- Splits off the longest prefix of digits. -/
def spanDigits : List Char → List Char × List Char
  | [] => ([], [])
  | c :: cs =>
    if isDigit c then ((spanDigits cs).1.cons c, (spanDigits cs).2) else ([], c :: cs)

/-- The integer part of a number: `0`, or a non-zero digit followed by digits. -/
def scanIntPart : List Char → Option (List Char × List Char)
  | [] => none
  | c :: cs =>
    if c = '0' then some ([c], cs)
    else if isDigit c then some (c :: (spanDigits cs).1, (spanDigits cs).2)
    else none

/-- The optional fraction of a number: a dot followed by at least one digit. -/
def scanFrac : List Char → Option (List Char × List Char)
  | [] => some ([], [])
  | c :: cs =>
    if c = '.' then
      (if (spanDigits cs).1 = [] then none else some (c :: (spanDigits cs).1, (spanDigits cs).2))
    else some ([], c :: cs)

/-- The optional exponent of a number: `e` or `E`, an optional sign, at least one digit. -/
def scanExp : List Char → Option (List Char × List Char)
  | [] => some ([], [])
  | c :: cs =>
    if c = 'e' ∨ c = 'E' then
      match cs with
      | [] => none
      | s :: cs1 =>
        if s = '+' ∨ s = '-' then
          (if (spanDigits cs1).1 = [] then none
           else some (c :: s :: (spanDigits cs1).1, (spanDigits cs1).2))
        else
          (if (spanDigits cs).1 = [] then none
           else some (c :: (spanDigits cs).1, (spanDigits cs).2))
    else some ([], c :: cs)

/-- Reads a number after its optional minus sign. -/
def scanUnsigned (cs : List Char) : Option (List Char × List Char) :=
  match scanIntPart cs with
  | none => none
  | some (i, r1) =>
    match scanFrac r1 with
    | none => none
    | some (f, r2) =>
      match scanExp r2 with
      | none => none
      | some (e, r3) => some (i ++ f ++ e, r3)

/-- Reads a number literal: returns its text and the text after it. -/
def scanNumber : List Char → Option (List Char × List Char)
  | [] => none
  | c :: cs =>
    if c = '-' then
      match scanUnsigned cs with
      | none => none
      | some (lit, r) => some (c :: lit, r)
    else scanUnsigned (c :: cs)

/-- Strips the word `w` from the front of the text. -/
def stripWord : List Char → List Char → Option (List Char)
  | [], cs => some cs
  | _ :: _, [] => none
  | w :: ws, c :: cs => if w = c then stripWord ws cs else none

/-- The scanner's `maxNestingDepth`. -/
def maxNestingDepth : Nat := 10000

mutual
/-- Reads one JSON value, white space before it allowed; `depth` is the
number of arrays and objects open around it. -/
def parseValue : Nat → Nat → List Char → Option (JSON × List Char)
  | 0, _, _ => none
  | fuel + 1, depth, cs =>
    match skipSpace cs with
    | [] => none
    | c :: r =>
      if c = '{' then
        if maxNestingDepth ≤ depth then none
        else
          match skipSpace r with
          | [] => none
          | c1 :: r1 =>
            if c1 = '}' then some (JSON.obj [], r1)
            else parseMembers fuel (depth + 1) (c1 :: r1) []
      else if c = '[' then
        if maxNestingDepth ≤ depth then none
        else
          match skipSpace r with
          | [] => none
          | c1 :: r1 =>
            if c1 = ']' then some (JSON.arr [], r1)
            else parseElems fuel (depth + 1) (c1 :: r1) []
      else if c = dquote then
        match unquote (r.length + 1) [] r with
        | none => none
        | some (s, r1) => some (JSON.str s, r1)
      else if c = 't' then
        match stripWord "rue".data r with
        | none => none
        | some r1 => some (JSON.bool true, r1)
      else if c = 'f' then
        match stripWord "alse".data r with
        | none => none
        | some r1 => some (JSON.bool false, r1)
      else if c = 'n' then
        match stripWord "ull".data r with
        | none => none
        | some r1 => some (JSON.null, r1)
      else
        match scanNumber (c :: r) with
        | none => none
        | some (lit, r1) => some (JSON.num lit, r1)
/-- Reads the elements of an array up to and including its closing bracket;
the text starts at an element. -/
def parseElems : Nat → Nat → List Char → List JSON → Option (JSON × List Char)
  | 0, _, _, _ => none
  | fuel + 1, depth, cs, acc =>
    match parseValue fuel depth cs with
    | none => none
    | some (v, r) =>
      match skipSpace r with
      | [] => none
      | c :: r1 =>
        if c = ',' then parseElems fuel depth r1 (acc ++ [v])
        else if c = ']' then some (JSON.arr (acc ++ [v]), r1)
        else none
/-- Reads the members of an object up to and including its closing brace;
the text starts at a key, white space before it allowed. -/
def parseMembers : Nat → Nat → List Char → List (List Char × JSON) → Option (JSON × List Char)
  | 0, _, _, _ => none
  | fuel + 1, depth, cs, acc =>
    match skipSpace cs with
    | [] => none
    | q :: r =>
      if q = dquote then
        match unquote (r.length + 1) [] r with
        | none => none
        | some (key, r1) =>
          match skipSpace r1 with
          | [] => none
          | c :: r2 =>
            if c = ':' then
              match parseValue fuel depth r2 with
              | none => none
              | some (v, r3) =>
                match skipSpace r3 with
                | [] => none
                | c1 :: r4 =>
                  if c1 = ',' then parseMembers fuel depth r4 (acc ++ [(key, v)])
                  else if c1 = '}' then some (JSON.obj (acc ++ [(key, v)]), r4)
                  else none
            else none
      else none
end

/-- The whole text as one JSON value: what `checkValid` accepts. -/
def parseJSON (data : List Char) : Option JSON :=
  match parseValue (data.length + 1) 0 data with
  | none => none
  | some (v, r) => if skipSpace r = [] then some v else none

/-! ## `encoding/json`: decoding into a `Lot` -/

/-- The value of a sequence of decimal digits. -/
def digitsValue (ds : List Char) : Nat :=
  ds.foldl (fun acc c => acc * 10 + (c.toNat - 48)) 0

/-- The integer of a magnitude and a sign, if it fits a Go `int`. -/
def mkGoInt (n : Int) : Option GoInt :=
  if h : minInt64 ≤ n ∧ n ≤ maxInt64 then some ⟨n, h⟩ else none

/-- The call `strconv.ParseInt(lit, 10, 64)` on the text of a JSON number: an optional
minus sign and digits only, the value within 64 bits. -/
def parseInt64 : List Char → Option GoInt
  | [] => none
  | c :: cs =>
    if c = '-' then
      (if cs ≠ [] ∧ cs.all isDigit = true then mkGoInt (-(digitsValue cs : Int)) else none)
    else
      (if (c :: cs).all isDigit = true then mkGoInt (digitsValue (c :: cs) : Int) else none)

/-- The fields of `Lot` the decoder can see: the exported ones. -/
inductive LotField where
  | ID
  | owner
  | ownerId
  deriving DecidableEq, Repr

/-- The JSON name of a field: its tag. -/
def LotField.name : LotField → List Char
  | .ID => "ID".data
  | .owner => "owner".data
  | .ownerId => "ownerId".data

/-- The visible fields in declaration order. -/
def lotFields : List LotField := [.ID, .owner, .ownerId]

/-- Lower case of an ASCII letter, any other character unchanged. -/
def asciiLower (c : Char) : Char :=
  if 65 ≤ c.toNat ∧ c.toNat ≤ 90 then Char.ofNat (c.toNat + 32) else c

/-- Equality of names up to the case of ASCII letters. The three field names are
made of ASCII letters other than `k` and `s`, for which Unicode case
folding adds nothing. -/
def equalFold (a b : List Char) : Bool :=
  decide (a.map asciiLower = b.map asciiLower)

/-- The field a key of the object addresses: the one with exactly that name,
otherwise the first one whose name matches up to case. -/
def findField (key : List Char) : Option LotField :=
  match lotFields.find? (fun f => decide (f.name = key)) with
  | some f => some f
  | none => lotFields.find? (fun f => equalFold f.name key)

/-- The word `UnmarshalTypeError.Value` uses for a JSON value. -/
def JSON.kind : JSON → String
  | .null => "null"
  | .bool _ => "bool"
  | .num _ => "number"
  | .str _ => "string"
  | .arr _ => "array"
  | .obj _ => "object"

/-- Records an error unless one is recorded already (`saveError`). -/
def saveError (saved : Option GoError) (e : JsonError) : Option GoError :=
  match saved with
  | some err => some err
  | none => some (GoError.json e)

/-- Stores one member of the object into the struct: `null` leaves the field
as it is, a value of the field's kind sets it (a string field to the
UTF-8 bytes of the decoded literal), any other value records a type
error and leaves the field; a key that names no visible field is
skipped. -/
def storeMember (st : Lot × Option GoError) (m : List Char × JSON) : Lot × Option GoError :=
  match findField m.1 with
  | none => st
  | some f =>
    match m.2 with
    | .null => st
    | v =>
      match f, v with
      | .ID, .str s => ({ st.1 with ID := utf8Encode s }, st.2)
      | .owner, .str s => ({ st.1 with Owner := utf8Encode s }, st.2)
      | .ownerId, .num lit =>
        match parseInt64 lit with
        | some n => ({ st.1 with OwnerId := n }, st.2)
        | none =>
          (st.1, saveError st.2
            (.unmarshalType ("number " ++ String.mk lit) (String.mk f.name)))
      | _, _ => (st.1, saveError st.2 (.unmarshalType v.kind (String.mk f.name)))

/-- The call `json.Unmarshal(data, &asset)`: the struct after the call and the error.
The bytes are read as code points, U+FFFD standing for each byte that is
not part of valid UTF-8.
Text that is not JSON is a syntax error and leaves the struct untouched;
`null` leaves it untouched without error; an object is stored member by
member; any other value is a type error, which names no field. -/
def jsonUnmarshal (data : Bytes) (asset : Lot) : Lot × Option GoError :=
  match parseJSON (validChars data) with
  | none => (asset, some (.json .syntaxError))
  | some .null => (asset, none)
  | some (.obj members) => members.foldl storeMember (asset, none)
  | some v => (asset, some (.json (.unmarshalType v.kind "")))

/-! ## The ledger stub -/

/-- The world state behind `ctx.GetStub()`: the key-value pairs in key order,
and what makes a call fail. A call fails when its entry below is
`some`. -/
structure Stub where
  /-- The stored pairs. -/
  state : List (GoString × Bytes)
  /-- Failure of `GetState(key)`. -/
  getErr : GoString → Option StubError
  /-- Failure of `PutState(key, value)`. -/
  putErr : GoString → Bytes → Option StubError
  /-- Failure of `GetStateByRange`. -/
  rangeErr : Option StubError
  /-- Failure of the call of `Next` that would yield the pair at this position. -/
  nextErr : Nat → Option StubError

/-- The value stored under a key. -/
def lookup (key : GoString) : List (GoString × Bytes) → Option Bytes
  | [] => none
  | (k, v) :: rest => if k = key then some v else lookup key rest

/-- Writes a pair, replacing the value of a key that is present and keeping
the pairs in key order. Keys are compared byte by byte. -/
def insert (key : GoString) (value : Bytes) : List (GoString × Bytes) → List (GoString × Bytes)
  | [] => [(key, value)]
  | (k, v) :: rest =>
    if k = key then (key, value) :: rest
    else if key < k then (key, value) :: (k, v) :: rest
    else (k, v) :: insert key value rest

/-- The stub call `GetState`: the value and the error; the value is `nil` for a key that
holds none. -/
def GetState (ctx : Stub) (key : GoString) : Option Bytes × Option StubError :=
  match ctx.getErr key with
  | some e => (none, some e)
  | none => (lookup key ctx.state, none)

/-- The stub call `PutState`: the error and the stub after the call. A failed call
writes nothing. -/
def PutState (ctx : Stub) (key : GoString) (value : Bytes) : Option StubError × Stub :=
  match ctx.putErr key value with
  | some e => (some e, ctx)
  | none => (none, { ctx with state := insert key value ctx.state })

/-- The stub call `GetStateByRange`: the pairs the iterator will yield, in key order, from
`startKey` on and before `endKey`, an empty bound being open. -/
def GetStateByRange (ctx : Stub) (startKey endKey : GoString) :
    List (GoString × Bytes) × Option StubError :=
  match ctx.rangeErr with
  | some e => ([], some e)
  | none =>
    (ctx.state.filter (fun kv =>
      (decide (startKey = []) || decide (startKey ≤ kv.1)) &&
      (decide (endKey = []) || decide (kv.1 < endKey))), none)

/-- Wraps the error of a stub call for the caller. -/
def wrapStub : Option StubError → Option GoError
  | none => none
  | some e => some (.stub e)

/-! ## The contract (source lines 33-166) -/

/-- The loop of `InitLedger` over the seed assets. -/
def initLoop : List Lot → Stub → Option GoError × Stub
  | [], ctx => (none, ctx)
  | asset :: rest, ctx =>
    match jsonMarshal asset with
    | (_, some err) => (some err, ctx)
    | (assetJSON, none) =>
      match PutState ctx asset.ID assetJSON with
      | (some err, ctx1) =>
        (some (.errorf (go "failed to put to world state. " ++ err.msg)), ctx1)
      | (none, ctx1) => initLoop rest ctx1

/-- The operation `InitLedger`: the seed list is empty. -/
def InitLedger (ctx : Stub) : Option GoError × Stub :=
  initLoop [] ctx

/-- The operation `AssetExists`: whether `GetState` gives a value that is not `nil`. -/
def AssetExists (ctx : Stub) (id : GoString) : (Bool × Option GoError) × Stub :=
  match GetState ctx id with
  | (_, some err) =>
    ((false, some (.errorf (go "failed to read from world state: " ++ err.msg))), ctx)
  | (assetJSON, none) => ((assetJSON.isSome, none), ctx)

/-- The operation `ReadAsset`. -/
def ReadAsset (ctx : Stub) (id : GoString) : (Option Lot × Option GoError) × Stub :=
  match GetState ctx id with
  | (_, some err) =>
    ((none, some (.errorf (go "failed to read from world state: " ++ err.msg))), ctx)
  | (none, none) => ((none, some (.errorf (go "the asset " ++ id ++ go " does not exist"))), ctx)
  | (some assetJSON, none) =>
    match jsonUnmarshal assetJSON Lot.zero with
    | (_, some err) => ((none, some err), ctx)
    | (asset, none) => ((some asset, none), ctx)

/-- The operation `CreateAsset`. -/
def CreateAsset (ctx : Stub) (ID nfId : GoString) (lotProducts : List LotProduct)
    (Owner : GoString) (OwnerId : GoInt) (lotType createdAt : GoString) (total : GoInt)
    (formatedAddress : GoString) : Option GoError × Stub :=
  match AssetExists ctx ID with
  | ((_, some err), ctx1) => (some err, ctx1)
  | ((true, none), ctx1) => (some (.errorf (go "the asset " ++ ID ++ go " already exists")), ctx1)
  | ((false, none), ctx1) =>
    let asset : Lot :=
      { ID := ID, nfId := nfId, lotProducts := lotProducts, Owner := Owner,
        OwnerId := OwnerId, lotType := lotType, createdAt := createdAt, total := total,
        formatedAddress := formatedAddress }
    match jsonMarshal asset with
    | (_, some err) => (some err, ctx1)
    | (assetJSON, none) =>
      match PutState ctx1 ID assetJSON with
      | (err, ctx2) => (wrapStub err, ctx2)

/-- The operation `TransferAsset`. -/
def TransferAsset (ctx : Stub) (id newOwner : GoString) (newOwnerId : GoInt) :
    Option GoError × Stub :=
  match ReadAsset ctx id with
  | ((_, some err), ctx1) => (some err, ctx1)
  | ((none, none), ctx1) => (some (.panic (go "nil pointer dereference")), ctx1)
  | ((some asset, none), ctx1) =>
    let asset1 := { asset with Owner := newOwner }
    let asset2 := { asset1 with OwnerId := newOwnerId }
    match jsonMarshal asset2 with
    | (_, some err) => (some err, ctx1)
    | (assetJSON, none) =>
      match PutState ctx1 id assetJSON with
      | (err, ctx2) => (wrapStub err, ctx2)

/-- The loop of `GetAllAssets`: `pos` counts the calls of `Next` made so far,
`items` are the pairs the iterator still holds, `assets` the slice
built so far. -/
def getAllLoop (ctx : Stub) : Nat → List (GoString × Bytes) → List Lot →
    List Lot × Option GoError
  | _, [], assets => (assets, none)
  | pos, queryResponse :: rest, assets =>
    match ctx.nextErr pos with
    | some err => ([], some (.stub err))
    | none =>
      match jsonUnmarshal queryResponse.2 Lot.zero with
      | (_, some err) => ([], some err)
      | (asset, none) => getAllLoop ctx (pos + 1) rest (assets ++ [asset])

/-- The operation `GetAllAssets`. A `nil` slice is the empty list. -/
def GetAllAssets (ctx : Stub) : (List Lot × Option GoError) × Stub :=
  match GetStateByRange ctx (go "") (go "") with
  | (_, some err) => (([], some (.stub err)), ctx)
  | (items, none) => (getAllLoop ctx 0 items [], ctx)


/-! ## Definitions used by the statements -/

/-- Any character that can follow a number inside an object or at its end. -/
def endsNumber (c : Char) : Prop :=
  isDigit c = false ∧ c ≠ '.' ∧ c ≠ 'e' ∧ c ≠ 'E'

/-- The JSON object `json.Marshal` writes for a `Lot`, as the parser reads it. -/
def marshalled (asset : Lot) : JSON :=
  JSON.obj [("ID".data, JSON.str (validChars asset.ID)),
    ("owner".data, JSON.str (validChars asset.Owner)),
    ("ownerId".data, JSON.num (encodeInt asset.OwnerId))]

/-- What the encoding keeps of a `Lot`: the exported fields, with each byte of
`ID` and `Owner` that is not part of valid UTF-8 replaced by U+FFFD, and
every other field at its zero value. -/
def Lot.exported (asset : Lot) : Lot :=
  { Lot.zero with
    ID := toValid asset.ID
    Owner := toValid asset.Owner
    OwnerId := asset.OwnerId }

/-- A stub over an empty world state on which no call fails. -/
def emptyStub : Stub :=
  { state := [], getErr := fun _ => none, putErr := fun _ _ => none, rangeErr := none,
    nextErr := fun _ => none }

/-- The error `CreateAsset` returns for an occupied key. -/
def alreadyExists (id : GoString) : GoError :=
  .errorf (go "the asset " ++ id ++ go " already exists")

/-- The error `ReadAsset` returns for a key without a value. -/
def notFound (id : GoString) : GoError :=
  .errorf (go "the asset " ++ id ++ go " does not exist")

/-- Two structs agree on every field that is not exported. -/
def sameHidden (a b : Lot) : Prop :=
  a.nfId = b.nfId ∧ a.lotProducts = b.lotProducts ∧ a.lotType = b.lotType ∧
    a.createdAt = b.createdAt ∧ a.total = b.total ∧ a.formatedAddress = b.formatedAddress

/-- The struct literal of `CreateAsset` (source lines 70-80). -/
def mkLot (ID nfId : GoString) (lotProducts : List LotProduct) (Owner : GoString) (OwnerId : GoInt)
    (lotType createdAt : GoString) (total : GoInt) (formatedAddress : GoString) : Lot :=
  { ID := ID, nfId := nfId, lotProducts := lotProducts, Owner := Owner, OwnerId := OwnerId,
    lotType := lotType, createdAt := createdAt, total := total,
    formatedAddress := formatedAddress }

/-- A product line used in the examples. -/
def sampleProducts : List LotProduct :=
  [{ name := go "milk", quantity := ⟨2, by decide⟩, unitValue := ⟨50, by decide⟩, unit := go "l" }]

/-- A `Lot` with a value in every field, used in the examples. -/
def sampleLot : Lot :=
  mkLot (go "lot1") (go "nf1") sampleProducts (go "Bob") ⟨1, by decide⟩ (go "food")
    (go "2020-01-01") ⟨100, by decide⟩ (go "Rua A")

/-- The call `CreateAsset("lot1", ...)` with the fields of `sampleLot`, on the empty
world state. -/
def sampleCreate : Option GoError × Stub :=
  CreateAsset emptyStub (go "lot1") (go "nf1") sampleProducts (go "Bob") ⟨1, by decide⟩ (go "food")
    (go "2020-01-01") ⟨100, by decide⟩ (go "Rua A")

/-- A stub whose one stored value, under `lot1`, is not JSON. -/
def corruptStub : Stub :=
  { emptyStub with state := [(go "lot1", go "oops")] }


/-- A stub holding the encoding of `sampleLot` under `lot1` and a value that is
not JSON under `lot3`, on which every `PutState` fails and `GetState("bad")`
fails. -/
def faultyStub : Stub :=
  { state := [(go "lot1", (jsonMarshal sampleLot).1), (go "lot3", go "oops")]
    getErr := fun key => if key = go "bad" then some { msg := go "ledger unavailable" } else none
    putErr := fun _ _ => some { msg := go "ledger unavailable" }
    rangeErr := none
    nextErr := fun _ => none }

/-- The decoder applied to the value of a pair. -/
def decodePair (kv : GoString × Bytes) : Lot × Option GoError :=
  jsonUnmarshal kv.2 Lot.zero

/-- A second `Lot` used in the examples. -/
def lot2 : Lot :=
  mkLot (go "lot2") (go "nf2") [] (go "Carol") ⟨2, by decide⟩ (go "feed") (go "2021-02-02")
      ⟨5, by decide⟩ (go "Rua B")

/-- A stub holding the encodings of `sampleLot` and `lot2` under their keys, on
which no call fails. -/
def twoLots : Stub :=
  { emptyStub with
    state := [(go "lot1", (jsonMarshal sampleLot).1), (go "lot2", (jsonMarshal lot2).1)] }


/-- The bytes `value1` keep the `ID` of `value`: if `value` decodes as a `Lot`, so does
`value1`, with the same `ID`. -/
def keepsID (value value1 : Bytes) : Prop :=
  ∀ asset, jsonUnmarshal value Lot.zero = (asset, none) →
    ∃ asset1, jsonUnmarshal value1 Lot.zero = (asset1, none) ∧ asset1.ID = asset.ID


/-- The text `err.Error()` of an error whose text the contract or the stub
determines; the texts of the errors of `encoding/json` are not modelled. -/
def GoError.message : GoError → Option GoString
  | .stub e => some e.msg
  | .errorf msg => some msg
  | .panic msg => some msg
  | .json _ => none

/-- A Go string that is not valid UTF-8: `a`, the byte `ff`, `b`. -/
def invalidText : GoString := [97, 255, 98]

/-- The `Lot` `sampleLot` with an `ID` that is not valid UTF-8. -/
def invalidLot : Lot := { sampleLot with ID := invalidText }

/-- A stub over an empty world state on which `GetStateByRange` fails. -/
def scanFailEmptyStub : Stub :=
  { emptyStub with rangeErr := some { msg := go "ledger unavailable" } }

/-- A stub holding two good records on which `PutState` rejects one value, the
record of `lot1` with the owner Dave and the owner id 9, and accepts any
other. -/
def pickyStub : Stub :=
  { twoLots with
    putErr := fun _ value =>
      if value = (jsonMarshal { sampleLot with Owner := go "Dave", OwnerId := ⟨9, by decide⟩ }).1
      then some { msg := go "ledger unavailable" } else none }

/-- A stub holding two good records on which every `GetState` fails. -/
def getFailStub : Stub :=
  { twoLots with getErr := fun _ => some { msg := go "ledger unavailable" } }

/-- A stub holding two good records on which `GetStateByRange` fails. -/
def scanFailStub : Stub :=
  { twoLots with rangeErr := some { msg := go "ledger unavailable" } }

/-- A stub holding two good records on which the second call of `Next` fails. -/
def nextFailStub : Stub :=
  { twoLots with
    nextErr := fun pos => if pos = 1 then some { msg := go "ledger unavailable" } else none }


/-! ## Go strings and UTF-8 -/

theorem toNat_ofNat_of_valid (n : Nat) (h : n.isValidChar) : (Char.ofNat n).toNat = n := by
  simp only [Char.ofNat, h, dite_true, Char.ofNatAux, Char.toNat]
  rfl

theorem char_valid (c : Char) : c.toNat < 55296 ∨ (57343 < c.toNat ∧ c.toNat < 1114112) :=
  c.valid

theorem byte_val (n : Nat) (h : n < 256) : (byte n).val = n := by
  simp [byte, Nat.mod_eq_of_lt h]

theorem byte_of_val (b : Byte) : byte b.val = b := by
  apply Fin.ext
  simp [byte, Nat.mod_eq_of_lt b.isLt]

theorem decodeRune_utf8EncodeChar (c : Char) (rest : List Byte) :
    decodeRune (utf8EncodeChar c ++ rest) = some (c, (utf8EncodeChar c).length) := by
  have hv := char_valid c
  unfold utf8EncodeChar
  split_ifs with h1 h2 h3
  · have e0 : (byte c.toNat).val = c.toNat := byte_val _ (by omega)
    simp only [List.cons_append, List.nil_append, decodeRune, e0, h1, if_true, Char.ofNat_toNat,
      List.length_cons, List.length_nil]
  · have e0 : (byte (192 + c.toNat / 64)).val = 192 + c.toNat / 64 := byte_val _ (by omega)
    have e1 : (byte (128 + c.toNat % 64)).val = 128 + c.toNat % 64 := byte_val _ (by omega)
    have c0 : ¬ (192 + c.toNat / 64 < 128) := by omega
    have c1 : 194 ≤ 192 + c.toNat / 64 ∧ 192 + c.toNat / 64 ≤ 223 := by omega
    have k1 : isCont (byte (128 + c.toNat % 64)) = true := by
      simp only [isCont, e1, Bool.and_eq_true, decide_eq_true_eq]; omega
    have hval : (192 + c.toNat / 64 - 192) * 64 + (128 + c.toNat % 64 - 128) = c.toNat := by
      omega
    simp only [List.cons_append, List.nil_append, decodeRune, e0, e1, c0, c1, k1, if_true,
      if_false, and_self, hval, Char.ofNat_toNat, List.length_cons, List.length_nil]
  · have e0 : (byte (224 + c.toNat / 4096)).val = 224 + c.toNat / 4096 := byte_val _ (by omega)
    have e1 : (byte (128 + c.toNat / 64 % 64)).val = 128 + c.toNat / 64 % 64 :=
      byte_val _ (by omega)
    have e2 : (byte (128 + c.toNat % 64)).val = 128 + c.toNat % 64 := byte_val _ (by omega)
    have c0 : ¬ (224 + c.toNat / 4096 < 128) := by omega
    have c1 : ¬ (194 ≤ 224 + c.toNat / 4096 ∧ 224 + c.toNat / 4096 ≤ 223) := by omega
    have c2 : 224 ≤ 224 + c.toNat / 4096 ∧ 224 + c.toNat / 4096 ≤ 239 := by omega
    have k2 : isCont (byte (128 + c.toNat % 64)) = true := by
      simp only [isCont, e2, Bool.and_eq_true, decide_eq_true_eq]; omega
    have r1 : (if 224 + c.toNat / 4096 = 224 then 160 else 128) ≤ 128 + c.toNat / 64 % 64 := by
      split_ifs <;> omega
    have r2 : 128 + c.toNat / 64 % 64 ≤ (if 224 + c.toNat / 4096 = 237 then 159 else 191) := by
      split_ifs <;> omega
    have hval : (224 + c.toNat / 4096 - 224) * 4096 + (128 + c.toNat / 64 % 64 - 128) * 64
        + (128 + c.toNat % 64 - 128) = c.toNat := by omega
    simp only [List.cons_append, List.nil_append, decodeRune, e0, e1, e2, c0, c1, c2, k2, r1, r2,
      if_true, if_false, and_self, hval, Char.ofNat_toNat, List.length_cons, List.length_nil]
  · have e0 : (byte (240 + c.toNat / 262144)).val = 240 + c.toNat / 262144 :=
      byte_val _ (by omega)
    have e1 : (byte (128 + c.toNat / 4096 % 64)).val = 128 + c.toNat / 4096 % 64 :=
      byte_val _ (by omega)
    have e2 : (byte (128 + c.toNat / 64 % 64)).val = 128 + c.toNat / 64 % 64 :=
      byte_val _ (by omega)
    have e3 : (byte (128 + c.toNat % 64)).val = 128 + c.toNat % 64 := byte_val _ (by omega)
    have c0 : ¬ (240 + c.toNat / 262144 < 128) := by omega
    have c1 : ¬ (194 ≤ 240 + c.toNat / 262144 ∧ 240 + c.toNat / 262144 ≤ 223) := by omega
    have c2 : ¬ (224 ≤ 240 + c.toNat / 262144 ∧ 240 + c.toNat / 262144 ≤ 239) := by omega
    have c3 : 240 ≤ 240 + c.toNat / 262144 ∧ 240 + c.toNat / 262144 ≤ 244 := by omega
    have k2 : isCont (byte (128 + c.toNat / 64 % 64)) = true := by
      simp only [isCont, e2, Bool.and_eq_true, decide_eq_true_eq]; omega
    have k3 : isCont (byte (128 + c.toNat % 64)) = true := by
      simp only [isCont, e3, Bool.and_eq_true, decide_eq_true_eq]; omega
    have r1 : (if 240 + c.toNat / 262144 = 240 then 144 else 128)
        ≤ 128 + c.toNat / 4096 % 64 := by
      split_ifs <;> omega
    have r2 : 128 + c.toNat / 4096 % 64
        ≤ (if 240 + c.toNat / 262144 = 244 then 143 else 191) := by
      split_ifs <;> omega
    have hval : (240 + c.toNat / 262144 - 240) * 262144 + (128 + c.toNat / 4096 % 64 - 128) * 4096
        + (128 + c.toNat / 64 % 64 - 128) * 64 + (128 + c.toNat % 64 - 128) = c.toNat := by
      omega
    simp only [List.cons_append, List.nil_append, decodeRune, e0, e1, e2, e3, c0, c1, c2, c3, k2,
      k3, r1, r2, if_true, if_false, and_self, hval, Char.ofNat_toNat, List.length_cons,
      List.length_nil]

theorem utf8EncodeChar_length_pos (c : Char) : 0 < (utf8EncodeChar c).length := by
  unfold utf8EncodeChar
  split_ifs <;> simp

theorem decodeRunes_utf8Encode (cs : List Char) :
    ∀ fuel, (utf8Encode cs).length ≤ fuel → decodeRunes fuel (utf8Encode cs) = cs.map some := by
  induction cs with
  | nil =>
    intro fuel _
    cases fuel <;> simp [utf8Encode, decodeRunes]
  | cons c cs ih =>
    intro fuel hf
    have hpos := utf8EncodeChar_length_pos c
    simp only [utf8Encode, List.length_append] at hf
    obtain ⟨f, rfl⟩ : ∃ f, fuel = f + 1 := ⟨fuel - 1, by omega⟩
    obtain ⟨b, bs, hb⟩ : ∃ b bs, utf8EncodeChar c = b :: bs := by
      cases h : utf8EncodeChar c with
      | nil => rw [h] at hpos; simp at hpos
      | cons b bs => exact ⟨b, bs, rfl⟩
    have hd := decodeRune_utf8EncodeChar c (utf8Encode cs)
    rw [hb] at hd hf
    simp only [List.cons_append, List.length_cons] at hd hf
    simp only [utf8Encode, hb, List.cons_append, decodeRunes, hd, Nat.add_sub_cancel,
      List.drop_left, List.map_cons]
    rw [ih f (by omega)]

theorem runes_utf8Encode (cs : List Char) : runes (utf8Encode cs) = cs.map some :=
  decodeRunes_utf8Encode cs _ (Nat.le_refl _)

theorem validChars_utf8Encode (cs : List Char) : validChars (utf8Encode cs) = cs := by
  simp only [validChars, runes_utf8Encode, List.map_map]
  rw [show ((fun r : Option Char => r.getD runeError) ∘ some) = id from rfl, List.map_id]

/-- The UTF-8 encoding of code points is valid UTF-8: nothing in it is replaced. -/
theorem toValid_utf8Encode (cs : List Char) : toValid (utf8Encode cs) = utf8Encode cs := by
  rw [toValid, validChars_utf8Encode]

theorem toValid_toValid (s : GoString) : toValid (toValid s) = toValid s :=
  toValid_utf8Encode _

theorem byte_eq (n : Nat) (b : Byte) (h : n = b.val) : byte n = b := by
  subst h; exact byte_of_val b

theorem isCont_iff (b : Byte) : isCont b = true ↔ 128 ≤ b.val ∧ b.val ≤ 191 := by
  simp [isCont]

/-- What `decodeRune` accepts is the encoding of the code point it returns. -/
theorem utf8EncodeChar_of_decodeRune (b0 : Byte) (rest : List Byte) (c : Char) (n : Nat)
    (h : decodeRune (b0 :: rest) = some (c, n)) :
    utf8EncodeChar c ++ rest.drop (n - 1) = b0 :: rest := by
  have hb0 := b0.isLt
  simp only [decodeRune] at h
  by_cases h1 : b0.val < 128
  · rw [if_pos h1] at h
    simp only [Option.some.injEq, Prod.mk.injEq] at h
    obtain ⟨rfl, rfl⟩ := h
    have hv : (Char.ofNat b0.val).toNat = b0.val :=
      toNat_ofNat_of_valid _ (Or.inl (by omega))
    simp only [utf8EncodeChar, hv, h1, if_true, byte_of_val]
    rfl
  rw [if_neg h1] at h
  by_cases h2 : 194 ≤ b0.val ∧ b0.val ≤ 223
  · rw [if_pos h2] at h
    cases rest with
    | nil => simp at h
    | cons b1 rest1 =>
      simp only at h
      by_cases k1 : isCont b1 = true
      · rw [if_pos k1] at h
        simp only [Option.some.injEq, Prod.mk.injEq] at h
        obtain ⟨rfl, rfl⟩ := h
        rw [isCont_iff] at k1
        have hv : (Char.ofNat ((b0.val - 192) * 64 + (b1.val - 128))).toNat
            = (b0.val - 192) * 64 + (b1.val - 128) :=
          toNat_ofNat_of_valid _ (Or.inl (by omega))
        have a1 : ¬ ((b0.val - 192) * 64 + (b1.val - 128) < 128) := by omega
        have a2 : (b0.val - 192) * 64 + (b1.val - 128) < 2048 := by omega
        simp only [utf8EncodeChar, hv, a1, a2, if_true, if_false]
        rw [byte_eq _ b0 (by omega), byte_eq _ b1 (by omega)]
        rfl
      · rw [if_neg k1] at h
        simp at h
  rw [if_neg h2] at h
  by_cases h3 : 224 ≤ b0.val ∧ b0.val ≤ 239
  · rw [if_pos h3] at h
    cases rest with
    | nil => simp at h
    | cons b1 rest1 =>
      cases rest1 with
      | nil => simp at h
      | cons b2 rest2 =>
        simp only at h
        by_cases k1 : (if b0.val = 224 then 160 else 128) ≤ b1.val ∧
            b1.val ≤ (if b0.val = 237 then 159 else 191) ∧ isCont b2 = true
        · rw [if_pos k1] at h
          simp only [Option.some.injEq, Prod.mk.injEq] at h
          obtain ⟨rfl, rfl⟩ := h
          obtain ⟨r1, r2, k2⟩ := k1
          rw [isCont_iff] at k2
          have hb1 := b1.isLt
          have r1a : 128 ≤ b1.val ∧ (b0.val = 224 → 160 ≤ b1.val) := by
            split_ifs at r1 <;> omega
          have r2a : b1.val ≤ 191 ∧ (b0.val = 237 → b1.val ≤ 159) := by
            split_ifs at r2 <;> omega
          have hvalid : ((b0.val - 224) * 4096 + (b1.val - 128) * 64
              + (b2.val - 128)).isValidChar := by
            unfold Nat.isValidChar
            omega
          have hv := toNat_ofNat_of_valid _ hvalid
          have a1 : ¬ ((b0.val - 224) * 4096 + (b1.val - 128) * 64 + (b2.val - 128) < 128) := by
            omega
          have a2 : ¬ ((b0.val - 224) * 4096 + (b1.val - 128) * 64 + (b2.val - 128) < 2048) := by
            omega
          have a3 : (b0.val - 224) * 4096 + (b1.val - 128) * 64 + (b2.val - 128) < 65536 := by
            omega
          simp only [utf8EncodeChar, hv, a1, a2, a3, if_true, if_false]
          rw [byte_eq _ b0 (by omega), byte_eq _ b1 (by omega), byte_eq _ b2 (by omega)]
          rfl
        · rw [if_neg k1] at h
          simp at h
  rw [if_neg h3] at h
  by_cases h4 : 240 ≤ b0.val ∧ b0.val ≤ 244
  · rw [if_pos h4] at h
    cases rest with
    | nil => simp at h
    | cons b1 rest1 =>
      cases rest1 with
      | nil => simp at h
      | cons b2 rest2 =>
        cases rest2 with
        | nil => simp at h
        | cons b3 rest3 =>
          simp only at h
          by_cases k1 : (if b0.val = 240 then 144 else 128) ≤ b1.val ∧
              b1.val ≤ (if b0.val = 244 then 143 else 191) ∧ isCont b2 = true ∧ isCont b3 = true
          · rw [if_pos k1] at h
            simp only [Option.some.injEq, Prod.mk.injEq] at h
            obtain ⟨rfl, rfl⟩ := h
            obtain ⟨r1, r2, k2, k3⟩ := k1
            rw [isCont_iff] at k2 k3
            have hb1 := b1.isLt
            have r1a : 128 ≤ b1.val ∧ (b0.val = 240 → 144 ≤ b1.val) := by
              split_ifs at r1 <;> omega
            have r2a : b1.val ≤ 191 ∧ (b0.val = 244 → b1.val ≤ 143) := by
              split_ifs at r2 <;> omega
            have hvalid : ((b0.val - 240) * 262144 + (b1.val - 128) * 4096
                + (b2.val - 128) * 64 + (b3.val - 128)).isValidChar := by
              unfold Nat.isValidChar
              omega
            have hv := toNat_ofNat_of_valid _ hvalid
            have a3 : ¬ ((b0.val - 240) * 262144 + (b1.val - 128) * 4096
                + (b2.val - 128) * 64 + (b3.val - 128) < 65536) := by omega
            have a1 : ¬ ((b0.val - 240) * 262144 + (b1.val - 128) * 4096
                + (b2.val - 128) * 64 + (b3.val - 128) < 128) := by omega
            have a2 : ¬ ((b0.val - 240) * 262144 + (b1.val - 128) * 4096
                + (b2.val - 128) * 64 + (b3.val - 128) < 2048) := by omega
            simp only [utf8EncodeChar, hv, a1, a2, a3, if_true, if_false]
            rw [byte_eq _ b0 (by omega), byte_eq _ b1 (by omega), byte_eq _ b2 (by omega),
              byte_eq _ b3 (by omega)]
            rfl
          · rw [if_neg k1] at h
            simp at h
  rw [if_neg h4] at h
  simp at h

theorem decodeRunes_valid : ∀ (fuel : Nat) (s : GoString), s.length ≤ fuel →
    none ∉ decodeRunes fuel s →
    utf8Encode ((decodeRunes fuel s).map (fun r => r.getD runeError)) = s := by
  intro fuel
  induction fuel with
  | zero =>
    intro s hl _
    cases s with
    | nil => simp [decodeRunes, utf8Encode]
    | cons b rest => simp at hl
  | succ fuel ih =>
    intro s hl hv
    cases s with
    | nil => simp [decodeRunes, utf8Encode]
    | cons b rest =>
      simp only [decodeRunes] at hv ⊢
      cases hd : decodeRune (b :: rest) with
      | none => rw [hd] at hv; simp at hv
      | some p =>
        obtain ⟨c, n⟩ := p
        rw [hd] at hv
        simp only [List.mem_cons, not_or] at hv
        simp only [List.map_cons, Option.getD_some, utf8Encode]
        rw [ih (rest.drop (n - 1)) (by
          simp only [List.length_cons, List.length_drop] at hl ⊢; omega) hv.2]
        exact utf8EncodeChar_of_decodeRune b rest c n hd

/-- A Go string that is valid UTF-8 is left as it is. -/
theorem toValid_of_valid (s : GoString) (h : validString s = true) : toValid s = s := by
  apply decodeRunes_valid s.length s (Nat.le_refl _)
  intro hmem
  have := List.all_eq_true.mp h none hmem
  simp at this

/-- The reading of some byte sequences: a two-byte, a three-byte and a
four-byte encoding; an over-long form, a surrogate, a truncated encoding
and a value above U+10FFFF, in which no byte is part of valid UTF-8. -/
theorem runes_examples :
    runes [195, 169] = [some (Char.ofNat 233)] ∧
    runes [226, 130, 172] = [some (Char.ofNat 8364)] ∧
    runes [240, 159, 152, 128] = [some (Char.ofNat 128512)] ∧
    runes [192, 128] = [none, none] ∧
    runes [237, 160, 128] = [none, none, none] ∧
    runes [226, 130] = [none, none] ∧
    runes [244, 144, 128, 128] = [none, none, none, none] := by
  decide

/-! ## `encoding/json`: decoding what was encoded -/

theorem hexVal_hexDigit (d : Nat) (h : d < 16) : hexVal (hexDigit d) = some d := by
  interval_cases d <;> decide

theorem backslash_ne_dquote : backslash ≠ dquote := by decide

theorem unquote_backslash (fuel : Nat) (acc : List Char) (e : Char) (cs : List Char) (d : Char)
    (hu : e ≠ 'u') (hd : simpleEscape e = some d) :
    unquote (fuel + 1) acc (backslash :: e :: cs) = unquote fuel (acc ++ [d]) cs := by
  simp [unquote, backslash_ne_dquote, hu, hd]

theorem unquote_u4 (fuel : Nat) (acc : List Char) (x1 x2 x3 x4 : Char) (cs : List Char) (v : Nat)
    (hv : getu4 (backslash :: 'u' :: x1 :: x2 :: x3 :: x4 :: cs) = some v)
    (hs : v < 55296 ∨ 57344 ≤ v) :
    unquote (fuel + 1) acc (backslash :: 'u' :: x1 :: x2 :: x3 :: x4 :: cs)
      = unquote fuel (acc ++ [Char.ofNat v]) cs := by
  have h : ¬ (55296 ≤ v ∧ v < 57344) := by omega
  simp [unquote, backslash_ne_dquote, hv, h]

theorem unquote_plain (fuel : Nat) (acc : List Char) (c : Char) (cs : List Char)
    (h1 : c ≠ dquote) (h2 : c ≠ backslash) (h3 : ¬ c.toNat < 32) :
    unquote (fuel + 1) acc (c :: cs) = unquote fuel (acc ++ [c]) cs := by
  simp [unquote, h1, h2, h3]

theorem getu4_low (n : Nat) (h : n < 256) (cs : List Char) :
    getu4 (backslash :: 'u' :: '0' :: '0' :: hexDigit (n / 16) :: hexDigit (n % 16) :: cs)
      = some n := by
  have h1 : hexVal (hexDigit (n / 16)) = some (n / 16) := hexVal_hexDigit _ (by omega)
  have h2 : hexVal (hexDigit (n % 16)) = some (n % 16) := hexVal_hexDigit _ (by omega)
  have h0 : hexVal '0' = some 0 := by decide
  simp only [getu4, h0, h1, h2, and_self, if_true]
  congr 1
  omega

theorem getu4_sep (n : Nat) (h : n = 8232 ∨ n = 8233) (cs : List Char) :
    getu4 (backslash :: 'u' :: '2' :: '0' :: '2' :: hexDigit (n % 16) :: cs) = some n := by
  rcases h with h | h <;> subst h <;> rfl

theorem unquote_escapeChar (c : Char) (fuel : Nat) (acc rest : List Char) :
    unquote (fuel + 1) acc (escapeChar c ++ rest) = unquote fuel (acc ++ [c]) rest := by
  unfold escapeChar
  split_ifs with h1 h2 h3 h4 h5 h6 h7 h8
  · rcases h1 with h | h <;> subst h <;>
      exact unquote_backslash _ _ _ _ _ (by decide) (by decide)
  · have hc : c = Char.ofNat 8 := by rw [← h2, Char.ofNat_toNat]
    rw [hc]; exact unquote_backslash _ _ _ _ _ (by decide) (by decide)
  · have hc : c = Char.ofNat 12 := by rw [← h3, Char.ofNat_toNat]
    rw [hc]; exact unquote_backslash _ _ _ _ _ (by decide) (by decide)
  · have hc : c = Char.ofNat 10 := by rw [← h4, Char.ofNat_toNat]
    rw [hc]; exact unquote_backslash _ _ _ _ _ (by decide) (by decide)
  · have hc : c = Char.ofNat 13 := by rw [← h5, Char.ofNat_toNat]
    rw [hc]; exact unquote_backslash _ _ _ _ _ (by decide) (by decide)
  · have hc : c = Char.ofNat 9 := by rw [← h6, Char.ofNat_toNat]
    rw [hc]; exact unquote_backslash _ _ _ _ _ (by decide) (by decide)
  · have hn : c.toNat < 256 := by
      rcases h7 with h | h | h | h
      · omega
      · subst h; decide
      · subst h; decide
      · subst h; decide
    have := unquote_u4 fuel acc _ _ _ _ rest c.toNat (getu4_low c.toNat hn rest)
      (Or.inl (by omega))
    simpa using this
  · have := unquote_u4 fuel acc _ _ _ _ rest c.toNat (getu4_sep c.toNat h8 rest)
      (Or.inl (by omega))
    simpa using this
  · have hd : c ≠ dquote := fun h => h1 (Or.inl h)
    have hb : c ≠ backslash := fun h => h1 (Or.inr h)
    have hlt : ¬ c.toNat < 32 := fun h => h7 (Or.inl h)
    simpa using unquote_plain fuel acc c rest hd hb hlt

/-- The decoder reads the escape of an invalid byte as U+FFFD. -/
theorem unquote_escapeRune (r : Option Char) (fuel : Nat) (acc rest : List Char) :
    unquote (fuel + 1) acc (escapeRune r ++ rest)
      = unquote fuel (acc ++ [r.getD runeError]) rest := by
  cases r with
  | some c => exact unquote_escapeChar c fuel acc rest
  | none =>
    have hv : getu4 (backslash :: 'u' :: 'f' :: 'f' :: 'f' :: 'd' :: rest) = some 65533 := rfl
    exact unquote_u4 fuel acc _ _ _ _ rest 65533 hv (Or.inr (by decide))

theorem escapeRune_length_pos (r : Option Char) : 0 < (escapeRune r).length := by
  cases r with
  | some c =>
    show 0 < (escapeChar c).length
    unfold escapeChar
    split_ifs <;> simp
  | none => simp [escapeRune]

theorem unquote_escapeRunes (s : List (Option Char)) :
    ∀ (fuel : Nat) (acc rest : List Char), (escapeRunes s).length < fuel →
      unquote fuel acc (escapeRunes s ++ dquote :: rest)
        = some (acc ++ s.map (fun r => r.getD runeError), rest) := by
  induction s with
  | nil =>
    intro fuel acc rest hf
    obtain ⟨f, rfl⟩ : ∃ f, fuel = f + 1 := ⟨fuel - 1, by omega⟩
    simp [escapeRunes, unquote]
  | cons c cs ih =>
    intro fuel acc rest hf
    have hpos := escapeRune_length_pos c
    simp only [escapeRunes, List.length_append] at hf
    obtain ⟨f, rfl⟩ : ∃ f, fuel = f + 1 := ⟨fuel - 1, by omega⟩
    rw [escapeRunes, List.append_assoc, unquote_escapeRune, ih f _ _ (by omega)]
    simp

theorem digitChar_toNat (k : Nat) (h : k < 10) : (Char.ofNat (48 + k)).toNat = 48 + k := by
  interval_cases k <;> rfl

theorem isDigit_digitChar (k : Nat) (h : k < 10) : isDigit (Char.ofNat (48 + k)) = true := by
  interval_cases k <;> rfl

theorem digitsValue_append (xs : List Char) (c : Char) :
    digitsValue (xs ++ [c]) = digitsValue xs * 10 + (c.toNat - 48) := by
  simp [digitsValue, List.foldl_append]

/-- Shape and value of the decimal text of a number with at most `fuel + 1` digits. -/
theorem natDigits_spec : ∀ (fuel n : Nat), n < 10 ^ (fuel + 1) →
    ∃ d ds, natDigits fuel n = d :: ds ∧ isDigit d = true ∧ ds.all isDigit = true ∧
      (d = '0' → n = 0 ∧ ds = []) ∧ digitsValue (d :: ds) = n := by
  intro fuel
  induction fuel with
  | zero =>
    intro n hn
    have hn10 : n < 10 := by simpa using hn
    refine ⟨Char.ofNat (48 + n % 10), [], rfl, isDigit_digitChar _ (by omega), rfl, ?_, ?_⟩
    · intro h0
      have := congrArg Char.toNat h0
      rw [digitChar_toNat _ (by omega)] at this
      have h48 : ('0' : Char).toNat = 48 := rfl
      exact ⟨by omega, rfl⟩
    · simp [digitsValue, digitChar_toNat _ (Nat.mod_lt n (by decide : 0 < 10))]
      omega
  | succ fuel ih =>
    intro n hn
    by_cases h10 : n < 10
    · refine ⟨Char.ofNat (48 + n), [], by simp [natDigits, h10], isDigit_digitChar _ h10, rfl,
        ?_, ?_⟩
      · intro h0
        have := congrArg Char.toNat h0
        rw [digitChar_toNat _ h10] at this
        have h48 : ('0' : Char).toNat = 48 := rfl
        exact ⟨by omega, rfl⟩
      · simp [digitsValue, digitChar_toNat _ h10]
    · have hdiv : n / 10 < 10 ^ (fuel + 1) := by
        rw [Nat.div_lt_iff_lt_mul (by decide)]
        calc n < 10 ^ (fuel + 1 + 1) := hn
          _ = 10 ^ (fuel + 1) * 10 := by ring
      obtain ⟨d, ds, hnd, hd, hds, hz, hval⟩ := ih (n / 10) hdiv
      refine ⟨d, ds ++ [Char.ofNat (48 + n % 10)], by simp [natDigits, h10, hnd], hd, ?_, ?_, ?_⟩
      · simp [List.all_append, hds, isDigit_digitChar _ (Nat.mod_lt n (by decide : 0 < 10))]
      · intro h0
        have := (hz h0).1
        omega
      · rw [← List.cons_append, digitsValue_append, hval,
          digitChar_toNat _ (Nat.mod_lt n (by decide : 0 < 10))]
        omega

theorem spanDigits_append (ds : List Char) (c : Char) (rest : List Char)
    (hds : ds.all isDigit = true) (hc : isDigit c = false) :
    spanDigits (ds ++ c :: rest) = (ds, c :: rest) := by
  induction ds with
  | nil => simp [spanDigits, hc]
  | cons d ds ih =>
    simp only [List.all_cons, Bool.and_eq_true] at hds
    simp [spanDigits, hds.1, ih hds.2]

theorem scanUnsigned_natDigits (fuel n : Nat) (hn : n < 10 ^ (fuel + 1)) (c : Char)
    (rest : List Char) (hc : endsNumber c) :
    scanUnsigned (natDigits fuel n ++ c :: rest) = some (natDigits fuel n, c :: rest) := by
  obtain ⟨d, ds, hnd, hd, hds, hz, -⟩ := natDigits_spec fuel n hn
  obtain ⟨hc1, hc2, hc3, hc4⟩ := hc
  rw [hnd]
  by_cases h0 : d = '0'
  · obtain ⟨-, rfl⟩ := hz h0
    subst h0
    simp [scanUnsigned, scanIntPart, scanFrac, scanExp, hc2, hc3, hc4]
  · simp [scanUnsigned, scanIntPart, h0, hd, spanDigits_append ds c rest hds hc1, scanFrac,
      scanExp, hc2, hc3, hc4]

theorem natAbs_lt (n : GoInt) : n.val.natAbs < 10 ^ (19 + 1) := by
  have h := n.2
  simp only [minInt64, maxInt64] at h
  norm_num
  omega

theorem isDigit_ne_minus (d : Char) (hd : isDigit d = true) : d ≠ '-' := by
  intro h; subst h; exact absurd hd (by decide)

theorem mkGoInt_val (n : GoInt) : mkGoInt n.val = some n := by
  simp [mkGoInt, n.2]

theorem parseInt64_encodeInt (n : GoInt) : parseInt64 (encodeInt n) = some n := by
  obtain ⟨d, ds, hnd, hd, hds, -, hval⟩ := natDigits_spec 19 n.val.natAbs (natAbs_lt n)
  unfold encodeInt
  split_ifs with hneg
  · have hv : (-(digitsValue (natDigits 19 n.val.natAbs) : Int)) = n.val := by
      rw [hnd, hval]; omega
    simp only [parseInt64, if_true]
    rw [hv, mkGoInt_val]
    simp [hnd, hd, hds]
  · have hv : ((digitsValue (d :: ds) : Nat) : Int) = n.val := by
      rw [hval]; omega
    rw [hnd]
    simp only [parseInt64, isDigit_ne_minus d hd, if_false]
    rw [hv, mkGoInt_val]
    simp [hd, hds]

theorem scanNumber_encodeInt (n : GoInt) (c : Char) (rest : List Char) (hc : endsNumber c) :
    scanNumber (encodeInt n ++ c :: rest) = some (encodeInt n, c :: rest) := by
  have hs := scanUnsigned_natDigits 19 n.val.natAbs (natAbs_lt n) c rest hc
  obtain ⟨d, ds, hnd, hd, -, -, -⟩ := natDigits_spec 19 n.val.natAbs (natAbs_lt n)
  unfold encodeInt
  split_ifs with hneg
  · simp [scanNumber, hs]
  · rw [hnd] at hs ⊢
    simp only [List.cons_append] at hs ⊢
    simp [scanNumber, isDigit_ne_minus d hd, hs]

/-- The first character of the text of an integer: a digit or the minus sign. -/
theorem encodeInt_head (n : GoInt) :
    ∃ d ds, encodeInt n = d :: ds ∧ (isDigit d = true ∨ d = '-') := by
  obtain ⟨d, ds, hnd, hd, -, -, -⟩ := natDigits_spec 19 n.val.natAbs (natAbs_lt n)
  unfold encodeInt
  split_ifs with hneg
  · exact ⟨'-', _, rfl, Or.inr rfl⟩
  · exact ⟨d, ds, hnd, Or.inl hd⟩

theorem skipSpace_cons (c : Char) (cs : List Char) (h : isSpace c = false) :
    skipSpace (c :: cs) = c :: cs := by
  simp [skipSpace, h]

theorem parseValue_string (fuel depth : Nat) (s : GoString) (rest : List Char) :
    parseValue (fuel + 1) depth (encodeString s ++ rest)
      = some (JSON.str (validChars s), rest) := by
  have hq := unquote_escapeRunes (runes s)
    ((escapeRunes (runes s) ++ dquote :: rest).length + 1) [] rest (by simp; omega)
  have h1 : isSpace dquote = false := by decide
  have h2 : dquote ≠ '{' := by decide
  have h3 : dquote ≠ '[' := by decide
  simp only [encodeString, List.cons_append, List.append_assoc, List.singleton_append,
    List.nil_append, parseValue, skipSpace_cons _ _ h1, h2, h3, if_false, if_true]
  rw [hq]
  simp [validChars]

theorem parseValue_int (fuel depth : Nat) (n : GoInt) (c : Char) (rest : List Char)
    (hc : endsNumber c) :
    parseValue (fuel + 1) depth (encodeInt n ++ c :: rest)
      = some (JSON.num (encodeInt n), c :: rest) := by
  have hs := scanNumber_encodeInt n c rest hc
  obtain ⟨d, ds, hnd, hd⟩ := encodeInt_head n
  rw [hnd] at hs ⊢
  simp only [List.cons_append] at hs ⊢
  have hsp : isSpace d = false := by
    rcases hd with hd | hd
    · simp only [isDigit, Bool.and_eq_true, decide_eq_true_eq] at hd
      simp only [isSpace, Bool.or_eq_false_iff, decide_eq_false_iff_not]
      omega
    · subst hd; decide
  have hne : ∀ x : Char, (isDigit x = false) → x ≠ '-' → d ≠ x := by
    intro x hx hx2 hdx
    subst hdx
    rcases hd with hd | hd
    · simp [hd] at hx
    · exact hx2 hd
  simp only [parseValue, skipSpace_cons _ _ hsp, hne '{' (by decide) (by decide),
    hne '[' (by decide) (by decide), hne dquote (by decide) (by decide),
    hne 't' (by decide) (by decide), hne 'f' (by decide) (by decide),
    hne 'n' (by decide) (by decide), if_false, hs]

theorem parseMembers_key (fuel depth : Nat) (k : GoString) (c : Char) (rest : List Char)
    (acc : List (List Char × JSON)) (hc : c = ':') :
    parseMembers (fuel + 1) depth (encodeString k ++ c :: rest) acc =
      match parseValue fuel depth rest with
      | none => none
      | some (v, r3) =>
        match skipSpace r3 with
        | [] => none
        | c1 :: r4 =>
          if c1 = ',' then parseMembers fuel depth r4 (acc ++ [(validChars k, v)])
          else if c1 = '}' then some (JSON.obj (acc ++ [(validChars k, v)]), r4)
          else none := by
  subst hc
  have hq := unquote_escapeRunes (runes k)
    ((escapeRunes (runes k) ++ dquote :: ':' :: rest).length + 1)
    [] (':' :: rest) (by simp; omega)
  have h1 : isSpace dquote = false := by decide
  have h2 : isSpace ':' = false := by decide
  simp only [encodeString, List.cons_append, List.append_assoc, List.singleton_append,
    List.nil_append, parseMembers, skipSpace_cons _ _ h1, if_true]
  rw [hq]
  simp only [List.nil_append, skipSpace_cons _ _ h2, if_true]
  rfl

theorem parseValue_marshalText (fuel : Nat) (asset : Lot) (rest : List Char) :
    parseValue (fuel + 5) 0 (marshalText asset ++ rest) = some (marshalled asset, rest) := by
  have hd : ∃ r, encodeString (go "ID") = dquote :: r := ⟨_, rfl⟩
  obtain ⟨r, hr⟩ := hd
  have hb : isSpace '{' = false := by decide
  have hq : isSpace dquote = false := by decide
  have hcomma : isSpace ',' = false := by decide
  have hbrace : isSpace '}' = false := by decide
  have hend : endsNumber '}' := by
    refine ⟨by decide, by decide, by decide, by decide⟩
  have hne : dquote ≠ '}' := by decide
  have hm : ¬ maxNestingDepth ≤ 0 := by decide
  have hne2 : ('}' : Char) ≠ ',' := by decide
  simp only [marshalText, List.append_assoc, String.data, List.cons_append, List.nil_append]
  rw [parseValue, skipSpace_cons _ _ hb]
  simp only [if_true, hm, if_false]
  rw [hr, List.cons_append, skipSpace_cons _ _ hq]
  simp only [hne, if_false]
  rw [← List.cons_append, ← hr]
  rw [parseMembers_key _ _ _ _ _ _ rfl, parseValue_string]
  simp only [skipSpace_cons _ _ hcomma, if_true]
  rw [parseMembers_key _ _ _ _ _ _ rfl, parseValue_string]
  simp only [skipSpace_cons _ _ hcomma, if_true]
  rw [parseMembers_key _ _ _ _ _ _ rfl, parseValue_int _ _ _ _ _ hend]
  simp only [skipSpace_cons _ _ hbrace, if_true, hne2, if_false]
  rfl

theorem parseJSON_marshalText (asset : Lot) :
    parseJSON (marshalText asset) = some (marshalled asset) := by
  have hlen : ∃ f, (marshalText asset).length + 1 = f + 5 := by
    refine ⟨(marshalText asset).length - 4, ?_⟩
    have : 4 ≤ (marshalText asset).length := by
      simp [marshalText, encodeString]
      omega
    omega
  obtain ⟨f, hf⟩ := hlen
  have h := parseValue_marshalText f asset []
  rw [List.append_nil] at h
  simp [parseJSON, hf, h, skipSpace]

/-- The decoder reads the bytes `json.Marshal` returns as the text it wrote. -/
theorem validChars_jsonMarshal (asset : Lot) :
    validChars (jsonMarshal asset).1 = marshalText asset :=
  validChars_utf8Encode _

theorem jsonUnmarshal_jsonMarshal (asset : Lot) :
    jsonUnmarshal (jsonMarshal asset).1 Lot.zero = (asset.exported, none) := by
  have h1 : findField "ID".data = some LotField.ID := by decide
  have h2 : findField "owner".data = some LotField.owner := by decide
  have h3 : findField "ownerId".data = some LotField.ownerId := by decide
  simp only [jsonUnmarshal, validChars_jsonMarshal, parseJSON_marshalText, marshalled,
    List.foldl, storeMember, h1, h2, h3, parseInt64_encodeInt]
  rfl

/-- The bytes `json.Marshal` returns for `sampleLot`, and the literal it writes for
a string with characters it escapes. -/
theorem jsonMarshal_examples :
    (jsonMarshal sampleLot).1
      = go "\x7b\"ID\":\"lot1\",\"owner\":\"Bob\",\"ownerId\":1\x7d" ∧
    encodeString (go "<a\"\n") = "\"\\u003ca\\\"\\n\"".data ∧
    encodeString invalidText = "\"a\\ufffdb\"".data := by
  decide

/-- A stored value with a byte that is not valid UTF-8: inside a string
literal the value decodes, with U+FFFD in the place of the byte; outside
a string literal the value is not JSON. -/
theorem jsonUnmarshal_examples :
    jsonUnmarshal (go "\x7b\"ID\":\"a" ++ [255] ++ go "b\"\x7d") Lot.zero
      = ({ Lot.zero with ID := [97, 239, 191, 189, 98] }, none) ∧
    jsonUnmarshal (go "\x7b\"ID\":\"ab\"" ++ [255] ++ go "\x7d") Lot.zero
      = (Lot.zero, some (.json .syntaxError)) ∧
    jsonUnmarshal (go "[]") Lot.zero
      = (Lot.zero, some (.json (.unmarshalType "array" ""))) := by
  decide

/-! ## The fuel of the parser -/

theorem skipSpace_length (cs : List Char) : (skipSpace cs).length ≤ cs.length := by
  induction cs with
  | nil => simp [skipSpace]
  | cons c cs ih =>
    unfold skipSpace
    split_ifs
    · simp only [List.length_cons]; omega
    · exact Nat.le_refl _

theorem unquote_length : ∀ (fuel : Nat) (acc cs s r : List Char),
    unquote fuel acc cs = some (s, r) → r.length < cs.length := by
  intro fuel
  induction fuel with
  | zero => intro acc cs s r h; simp [unquote] at h
  | succ fuel ih =>
    intro acc cs s r h
    cases cs with
    | nil => simp [unquote] at h
    | cons c cs =>
      cases cs with
      | nil =>
        simp only [unquote] at h
        repeat' split at h
        all_goals first
          | (simp at h; done)
          | (apply Nat.lt_of_lt_of_le (ih _ _ _ _ h)
             simp only [List.length_cons, List.length_nil, List.length_drop]
             omega)
          | (simp only [Option.some.injEq, Prod.mk.injEq] at h
             obtain ⟨-, rfl⟩ := h
             simp)
      | cons e cs1 =>
        simp only [unquote] at h
        repeat' split at h
        all_goals first
          | (simp at h; done)
          | (apply Nat.lt_of_lt_of_le (ih _ _ _ _ h)
             simp only [List.length_cons, List.length_nil, List.length_drop]
             omega)
          | (simp only [Option.some.injEq, Prod.mk.injEq] at h
             obtain ⟨-, rfl⟩ := h
             simp)

/-- The reader of string literals does not depend on its fuel once the fuel
exceeds the length of the text. -/
theorem unquote_fuel : ∀ (fuel more : Nat) (acc cs : List Char), cs.length < fuel →
    unquote (fuel + more) acc cs = unquote fuel acc cs := by
  intro fuel
  induction fuel with
  | zero => intro more acc cs h; omega
  | succ fuel ih =>
    intro more acc cs h
    have hm : fuel + 1 + more = (fuel + more) + 1 := by omega
    rw [hm]
    cases cs with
    | nil => simp [unquote]
    | cons c cs =>
      simp only [List.length_cons] at h
      cases cs with
      | nil =>
        have e0 := ih more (acc ++ [c]) [] (by simp only [List.length_nil] at h ⊢; omega)
        simp only [unquote, e0]
      | cons e cs1 =>
        simp only [List.length_cons] at h
        have hd4 : (cs1.drop 4).length ≤ cs1.length := by simp
        have hd10 : (cs1.drop 10).length ≤ cs1.length := by simp
        have e0 := ih more (acc ++ [c]) (e :: cs1) (by simp only [List.length_cons]; omega)
        have e1 : ∀ a, unquote (fuel + more) a cs1 = unquote fuel a cs1 :=
          fun a => ih more a cs1 (by omega)
        have e4 : ∀ a, unquote (fuel + more) a (cs1.drop 4) = unquote fuel a (cs1.drop 4) :=
          fun a => ih more a _ (by omega)
        have e10 : ∀ a, unquote (fuel + more) a (cs1.drop 10) = unquote fuel a (cs1.drop 10) :=
          fun a => ih more a _ (by omega)
        simp only [unquote, e0, e1, e4, e10]

theorem spanDigits_length (cs : List Char) : (spanDigits cs).2.length ≤ cs.length := by
  induction cs with
  | nil => simp [spanDigits]
  | cons c cs ih =>
    unfold spanDigits
    split_ifs
    · simp only [List.length_cons]; omega
    · exact Nat.le_refl _

theorem scanIntPart_length (cs lit r : List Char) (h : scanIntPart cs = some (lit, r)) :
    r.length < cs.length := by
  cases cs with
  | nil => simp [scanIntPart] at h
  | cons c cs =>
    have := spanDigits_length cs
    simp only [scanIntPart] at h
    split_ifs at h <;> first
      | (simp at h; done)
      | (simp only [Option.some.injEq, Prod.mk.injEq] at h
         obtain ⟨-, rfl⟩ := h
         simp only [List.length_cons, List.length_nil]
         omega)

theorem scanFrac_length (cs lit r : List Char) (h : scanFrac cs = some (lit, r)) :
    r.length ≤ cs.length := by
  cases cs with
  | nil =>
    simp only [scanFrac, Option.some.injEq, Prod.mk.injEq] at h
    obtain ⟨-, rfl⟩ := h
    exact Nat.le_refl _
  | cons c cs =>
    have := spanDigits_length cs
    simp only [scanFrac] at h
    split_ifs at h <;> first
      | (simp at h; done)
      | (simp only [Option.some.injEq, Prod.mk.injEq] at h
         obtain ⟨-, rfl⟩ := h
         simp only [List.length_cons, List.length_nil]
         omega)

theorem scanExp_length (cs lit r : List Char) (h : scanExp cs = some (lit, r)) :
    r.length ≤ cs.length := by
  cases cs with
  | nil =>
    simp only [scanExp, Option.some.injEq, Prod.mk.injEq] at h
    obtain ⟨-, rfl⟩ := h
    exact Nat.le_refl _
  | cons c cs =>
    cases cs with
    | nil =>
      simp only [scanExp] at h
      split_ifs at h
      simp only [Option.some.injEq, Prod.mk.injEq] at h
      obtain ⟨-, rfl⟩ := h
      exact Nat.le_refl _
    | cons s cs1 =>
      have h1 := spanDigits_length cs1
      have h2 := spanDigits_length (s :: cs1)
      simp only [List.length_cons] at h2
      simp only [scanExp] at h
      split_ifs at h <;> first
      | (simp at h; done)
      | (simp only [Option.some.injEq, Prod.mk.injEq] at h
         obtain ⟨-, rfl⟩ := h
         simp only [List.length_cons, List.length_nil]
         omega)

theorem scanUnsigned_length (cs lit r : List Char) (h : scanUnsigned cs = some (lit, r)) :
    r.length < cs.length := by
  unfold scanUnsigned at h
  split at h
  · simp at h
  · rename_i i r1 h1
    split at h
    · simp at h
    · rename_i f r2 h2
      split at h
      · simp at h
      · rename_i e r3 h3
        simp only [Option.some.injEq, Prod.mk.injEq] at h
        have := scanIntPart_length _ _ _ h1
        have := scanFrac_length _ _ _ h2
        have := scanExp_length _ _ _ h3
        rw [← h.2]; omega

theorem scanNumber_length (cs lit r : List Char) (h : scanNumber cs = some (lit, r)) :
    r.length < cs.length := by
  cases cs with
  | nil => simp [scanNumber] at h
  | cons c cs =>
    simp only [scanNumber] at h
    split_ifs at h
    · split at h
      · simp at h
      · rename_i lit1 r1 h1
        simp only [Option.some.injEq, Prod.mk.injEq] at h
        have := scanUnsigned_length _ _ _ h1
        rw [← h.2]; simp only [List.length_cons]; omega
    · exact scanUnsigned_length _ _ _ h

theorem stripWord_length : ∀ (w cs r : List Char), stripWord w cs = some r →
    r.length ≤ cs.length := by
  intro w
  induction w with
  | nil =>
    intro cs r h
    simp only [stripWord, Option.some.injEq] at h
    rw [h]
  | cons x w ih =>
    intro cs r h
    cases cs with
    | nil => simp [stripWord] at h
    | cons c cs =>
      simp only [stripWord] at h
      split_ifs at h
      have := ih _ _ h
      simp only [List.length_cons]
      omega

theorem skipSpace_cons_length (cs : List Char) (c : Char) (rest : List Char)
    (h : skipSpace cs = c :: rest) : rest.length + 1 ≤ cs.length := by
  have := skipSpace_length cs
  rw [h] at this
  simpa using this

/-- A value that is neither an object nor an array is read without recursion. -/
theorem parseValue_scalar (f g d : Nat) (cs : List Char) (c : Char) (rest : List Char)
    (hs : skipSpace cs = c :: rest) (hb : c ≠ '{') (hk : c ≠ '[') :
    parseValue (f + 1) d cs = parseValue (g + 1) d cs := by
  simp only [parseValue, hs, hb, hk, if_false]

theorem parseValue_scalar_length (g d : Nat) (cs : List Char) (c : Char) (rest : List Char)
    (v : JSON) (r : List Char) (hs : skipSpace cs = c :: rest) (hb : c ≠ '{') (hk : c ≠ '[')
    (h : parseValue (g + 1) d cs = some (v, r)) : r.length < cs.length := by
  have hlen := skipSpace_cons_length cs c rest hs
  simp only [parseValue, hs, hb, hk, if_false] at h
  split_ifs at h
  · split at h
    · simp at h
    · rename_i s r1 hq
      simp only [Option.some.injEq, Prod.mk.injEq] at h
      obtain ⟨-, rfl⟩ := h
      have := unquote_length _ _ _ _ _ hq
      omega
  · split at h
    · simp at h
    · rename_i r1 hq
      simp only [Option.some.injEq, Prod.mk.injEq] at h
      obtain ⟨-, rfl⟩ := h
      have := stripWord_length _ _ _ hq
      omega
  · split at h
    · simp at h
    · rename_i r1 hq
      simp only [Option.some.injEq, Prod.mk.injEq] at h
      obtain ⟨-, rfl⟩ := h
      have := stripWord_length _ _ _ hq
      omega
  · split at h
    · simp at h
    · rename_i r1 hq
      simp only [Option.some.injEq, Prod.mk.injEq] at h
      obtain ⟨-, rfl⟩ := h
      have := stripWord_length _ _ _ hq
      omega
  · split at h
    · simp at h
    · rename_i lit r1 hq
      simp only [Option.some.injEq, Prod.mk.injEq] at h
      obtain ⟨-, rfl⟩ := h
      have := scanNumber_length _ _ _ hq
      simp only [List.length_cons] at this
      omega

/-- The three readers do not depend on their fuel once it reaches the number
of characters they consume: a result obtained with some fuel is the
result with any fuel from that number on, and it consumes at least one
character. -/
theorem parse_fuel (g : Nat) :
    (∀ d cs v r, parseValue g d cs = some (v, r) →
      r.length < cs.length ∧
        ∀ f, cs.length - r.length ≤ f → parseValue f d cs = some (v, r)) ∧
    (∀ d cs acc v r, parseElems g d cs acc = some (v, r) →
      r.length < cs.length ∧
        ∀ f, cs.length - r.length ≤ f → parseElems f d cs acc = some (v, r)) ∧
    (∀ d cs acc v r, parseMembers g d cs acc = some (v, r) →
      r.length < cs.length ∧
        ∀ f, cs.length - r.length ≤ f → parseMembers f d cs acc = some (v, r)) := by
  induction g with
  | zero =>
    refine ⟨?_, ?_, ?_⟩
    · intro d cs v r h; simp [parseValue] at h
    · intro d cs acc v r h; simp [parseElems] at h
    · intro d cs acc v r h; simp [parseMembers] at h
  | succ g ih =>
    obtain ⟨ihV, ihE, ihM⟩ := ih
    refine ⟨?_, ?_, ?_⟩
    · intro d cs v r h
      cases hs : skipSpace cs with
      | nil => simp [parseValue, hs] at h
      | cons c rest =>
        have hlen := skipSpace_cons_length cs c rest hs
        by_cases hb : c = '{'
        · by_cases hdepth : maxNestingDepth ≤ d
          · simp [parseValue, hs, hb, hdepth] at h
          · cases hs2 : skipSpace rest with
            | nil => simp [parseValue, hs, hb, hdepth, hs2] at h
            | cons c1 r1 =>
              have hlen2 := skipSpace_cons_length rest c1 r1 hs2
              by_cases hc1 : c1 = '}'
              · simp only [parseValue, hs, hb, hdepth, hs2, hc1, if_true, if_false,
                  Option.some.injEq, Prod.mk.injEq] at h
                obtain ⟨rfl, rfl⟩ := h
                refine ⟨by omega, ?_⟩
                intro f hf
                obtain ⟨f1, rfl⟩ : ∃ f1, f = f1 + 1 := ⟨f - 1, by omega⟩
                simp only [parseValue, hs, hb, hdepth, hs2, hc1, if_true, if_false]
              · simp only [parseValue, hs, hb, hdepth, hs2, hc1, if_true, if_false] at h
                obtain ⟨hl, hfuel⟩ := ihM _ _ _ _ _ h
                simp only [List.length_cons] at hl hfuel
                refine ⟨by omega, ?_⟩
                intro f hf
                obtain ⟨f1, rfl⟩ : ∃ f1, f = f1 + 1 := ⟨f - 1, by omega⟩
                simp only [parseValue, hs, hb, hdepth, hs2, hc1, if_true, if_false]
                exact hfuel f1 (by omega)
        · by_cases hk : c = '['
          · have hbk : ('[' : Char) ≠ '{' := by decide
            by_cases hdepth : maxNestingDepth ≤ d
            · simp [parseValue, hs, hk, hbk, hdepth] at h
            · cases hs2 : skipSpace rest with
              | nil => simp [parseValue, hs, hk, hbk, hdepth, hs2] at h
              | cons c1 r1 =>
                have hlen2 := skipSpace_cons_length rest c1 r1 hs2
                by_cases hc1 : c1 = ']'
                · simp only [parseValue, hs, hk, hbk, hdepth, hs2, hc1, if_true, if_false,
                    Option.some.injEq, Prod.mk.injEq] at h
                  obtain ⟨rfl, rfl⟩ := h
                  refine ⟨by omega, ?_⟩
                  intro f hf
                  obtain ⟨f1, rfl⟩ : ∃ f1, f = f1 + 1 := ⟨f - 1, by omega⟩
                  simp only [parseValue, hs, hk, hbk, hdepth, hs2, hc1, if_true, if_false]
                · simp only [parseValue, hs, hk, hbk, hdepth, hs2, hc1, if_true, if_false] at h
                  obtain ⟨hl, hfuel⟩ := ihE _ _ _ _ _ h
                  simp only [List.length_cons] at hl hfuel
                  refine ⟨by omega, ?_⟩
                  intro f hf
                  obtain ⟨f1, rfl⟩ : ∃ f1, f = f1 + 1 := ⟨f - 1, by omega⟩
                  simp only [parseValue, hs, hk, hbk, hdepth, hs2, hc1, if_true, if_false]
                  exact hfuel f1 (by omega)
          · have hl := parseValue_scalar_length g d cs c rest v r hs hb hk h
            refine ⟨hl, ?_⟩
            intro f hf
            obtain ⟨f1, rfl⟩ : ∃ f1, f = f1 + 1 := ⟨f - 1, by omega⟩
            rw [parseValue_scalar f1 g d cs c rest hs hb hk]
            exact h
    · intro d cs acc v r h
      cases hv : parseValue g d cs with
      | none => simp [parseElems, hv] at h
      | some p =>
        obtain ⟨v1, r1⟩ := p
        obtain ⟨hl1, hf1⟩ := ihV _ _ _ _ hv
        cases hs : skipSpace r1 with
        | nil => simp [parseElems, hv, hs] at h
        | cons c r2 =>
          have hlen := skipSpace_cons_length r1 c r2 hs
          by_cases hc : c = ','
          · simp only [parseElems, hv, hs, hc, if_true] at h
            obtain ⟨hl2, hf2⟩ := ihE _ _ _ _ _ h
            refine ⟨by omega, ?_⟩
            intro f hf
            obtain ⟨f1, rfl⟩ : ∃ f1, f = f1 + 1 := ⟨f - 1, by omega⟩
            simp only [parseElems, hf1 f1 (by omega), hs, hc, if_true]
            exact hf2 f1 (by omega)
          · by_cases hc2 : c = ']'
            · simp only [parseElems, hv, hs, hc, hc2, if_true, if_false, Option.some.injEq,
                Prod.mk.injEq] at h
              obtain ⟨rfl, rfl⟩ := h
              refine ⟨by omega, ?_⟩
              intro f hf
              obtain ⟨f1, rfl⟩ : ∃ f1, f = f1 + 1 := ⟨f - 1, by omega⟩
              simp only [parseElems, hf1 f1 (by omega), hs, hc, hc2, if_true, if_false]
              rw [if_neg (by decide)]
            · simp [parseElems, hv, hs, hc, hc2] at h
    · intro d cs acc v r h
      cases hs : skipSpace cs with
      | nil => simp [parseMembers, hs] at h
      | cons q rest =>
        have hlen := skipSpace_cons_length cs q rest hs
        by_cases hq : q = dquote
        · cases hu : unquote (rest.length + 1) [] rest with
          | none => simp [parseMembers, hs, hq, hu] at h
          | some p =>
            obtain ⟨key, r1⟩ := p
            have hlu := unquote_length _ _ _ _ _ hu
            cases hs1 : skipSpace r1 with
            | nil => simp [parseMembers, hs, hq, hu, hs1] at h
            | cons c r2 =>
              have hlen1 := skipSpace_cons_length r1 c r2 hs1
              by_cases hc : c = ':'
              · cases hv : parseValue g d r2 with
                | none => simp [parseMembers, hs, hq, hu, hs1, hc, hv] at h
                | some p2 =>
                  obtain ⟨v1, r3⟩ := p2
                  obtain ⟨hl1, hf1⟩ := ihV _ _ _ _ hv
                  cases hs3 : skipSpace r3 with
                  | nil => simp [parseMembers, hs, hq, hu, hs1, hc, hv, hs3] at h
                  | cons c1 r4 =>
                    have hlen3 := skipSpace_cons_length r3 c1 r4 hs3
                    by_cases hc1 : c1 = ','
                    · simp only [parseMembers, hs, hq, hu, hs1, hc, hv, hs3, hc1, if_true] at h
                      obtain ⟨hl2, hf2⟩ := ihM _ _ _ _ _ h
                      refine ⟨by omega, ?_⟩
                      intro f hf
                      obtain ⟨f1, rfl⟩ : ∃ f1, f = f1 + 1 := ⟨f - 1, by omega⟩
                      simp only [parseMembers, hs, hq, hu, hs1, hc, hf1 f1 (by omega), hs3, hc1,
                        if_true]
                      exact hf2 f1 (by omega)
                    · by_cases hc2 : c1 = '}'
                      · simp only [parseMembers, hs, hq, hu, hs1, hc, hv, hs3, hc1, hc2, if_true,
                          if_false, Option.some.injEq, Prod.mk.injEq] at h
                        obtain ⟨rfl, rfl⟩ := h
                        refine ⟨by omega, ?_⟩
                        intro f hf
                        obtain ⟨f1, rfl⟩ : ∃ f1, f = f1 + 1 := ⟨f - 1, by omega⟩
                        simp only [parseMembers, hs, hq, hu, hs1, hc, hf1 f1 (by omega), hs3,
                          hc1, hc2, if_true, if_false]
                        rw [if_neg (by decide)]
                      · simp [parseMembers, hs, hq, hu, hs1, hc, hv, hs3, hc1, hc2] at h
              · simp [parseMembers, hs, hq, hu, hs1, hc] at h
        · simp [parseMembers, hs, hq] at h

/-- The text is JSON exactly when the reader, given some amount of fuel, reads
one value that is followed by white space only: the fuel `parseJSON` gives
is never the reason of a failure. -/
theorem parseJSON_iff (data : List Char) (v : JSON) :
    parseJSON data = some v ↔
      ∃ fuel r, parseValue fuel 0 data = some (v, r) ∧ skipSpace r = [] := by
  constructor
  · intro h
    unfold parseJSON at h
    split at h
    · simp at h
    · rename_i v1 r hp
      split_ifs at h with hr
      simp only [Option.some.injEq] at h
      subst h
      exact ⟨_, r, hp, hr⟩
  · rintro ⟨fuel, r, hp, hr⟩
    have h := ((parse_fuel fuel).1 0 data v r hp).2 (data.length + 1) (by omega)
    simp [parseJSON, h, hr]

/-! ## The world state -/

theorem lookup_insert_self (key : GoString) (value : Bytes) (l : List (GoString × Bytes)) :
    lookup key (insert key value l) = some value := by
  induction l with
  | nil => simp [insert, lookup]
  | cons kv rest ih =>
    obtain ⟨k, v⟩ := kv
    by_cases h1 : k = key
    · simp [insert, lookup, h1]
    · by_cases h2 : key < k
      · simp [insert, lookup, h1, h2]
      · simp [insert, lookup, h1, h2, ih]

theorem lookup_insert_of_ne (key other : GoString) (value : Bytes) (l : List (GoString × Bytes))
    (h : other ≠ key) : lookup other (insert key value l) = lookup other l := by
  induction l with
  | nil => simp [insert, lookup, Ne.symm h]
  | cons kv rest ih =>
    obtain ⟨k, v⟩ := kv
    by_cases h1 : k = key
    · subst h1
      simp [insert, lookup, Ne.symm h]
    · by_cases h2 : key < k
      · simp [insert, lookup, h1, h2, Ne.symm h]
      · simp [insert, lookup, h1, h2, ih]

/-! ## Fields the decoder never writes -/

theorem storeMember_sameHidden (st : Lot × Option GoError) (m : List Char × JSON) :
    sameHidden (storeMember st m).1 st.1 := by
  unfold storeMember
  split
  · exact ⟨rfl, rfl, rfl, rfl, rfl, rfl⟩
  · split
    · exact ⟨rfl, rfl, rfl, rfl, rfl, rfl⟩
    · split
      · exact ⟨rfl, rfl, rfl, rfl, rfl, rfl⟩
      · exact ⟨rfl, rfl, rfl, rfl, rfl, rfl⟩
      · split <;> exact ⟨rfl, rfl, rfl, rfl, rfl, rfl⟩
      · exact ⟨rfl, rfl, rfl, rfl, rfl, rfl⟩

theorem foldl_storeMember_sameHidden (ms : List (List Char × JSON)) :
    ∀ st : Lot × Option GoError, sameHidden (ms.foldl storeMember st).1 st.1 := by
  induction ms with
  | nil => intro st; exact ⟨rfl, rfl, rfl, rfl, rfl, rfl⟩
  | cons m ms ih =>
    intro st
    obtain ⟨h1, h2, h3, h4, h5, h6⟩ := ih (storeMember st m)
    obtain ⟨g1, g2, g3, g4, g5, g6⟩ := storeMember_sameHidden st m
    exact ⟨h1.trans g1, h2.trans g2, h3.trans g3, h4.trans g4, h5.trans g5, h6.trans g6⟩

theorem jsonUnmarshal_sameHidden (data : Bytes) (asset : Lot) :
    sameHidden (jsonUnmarshal data asset).1 asset := by
  unfold jsonUnmarshal
  split
  · exact ⟨rfl, rfl, rfl, rfl, rfl, rfl⟩
  · exact ⟨rfl, rfl, rfl, rfl, rfl, rfl⟩
  · exact foldl_storeMember_sameHidden _ _
  · exact ⟨rfl, rfl, rfl, rfl, rfl, rfl⟩

/-! ## Strings the decoder writes -/

theorem storeMember_valid (st : Lot × Option GoError) (m : List Char × JSON)
    (h : toValid st.1.ID = st.1.ID ∧ toValid st.1.Owner = st.1.Owner) :
    toValid (storeMember st m).1.ID = (storeMember st m).1.ID ∧
      toValid (storeMember st m).1.Owner = (storeMember st m).1.Owner := by
  unfold storeMember
  split
  · exact h
  · split
    · exact h
    · split
      · exact ⟨toValid_utf8Encode _, h.2⟩
      · exact ⟨h.1, toValid_utf8Encode _⟩
      · split <;> exact h
      · exact h

theorem foldl_storeMember_valid (ms : List (List Char × JSON)) :
    ∀ st : Lot × Option GoError,
      toValid st.1.ID = st.1.ID ∧ toValid st.1.Owner = st.1.Owner →
      toValid (ms.foldl storeMember st).1.ID = (ms.foldl storeMember st).1.ID ∧
        toValid (ms.foldl storeMember st).1.Owner = (ms.foldl storeMember st).1.Owner := by
  induction ms with
  | nil => intro st h; exact h
  | cons m ms ih => intro st h; exact ih (storeMember st m) (storeMember_valid st m h)

/-- The strings of a `Lot` decoded into the zero value are valid UTF-8. -/
theorem jsonUnmarshal_valid (data : Bytes) :
    toValid (jsonUnmarshal data Lot.zero).1.ID = (jsonUnmarshal data Lot.zero).1.ID ∧
      toValid (jsonUnmarshal data Lot.zero).1.Owner = (jsonUnmarshal data Lot.zero).1.Owner := by
  have h0 : toValid Lot.zero.ID = Lot.zero.ID ∧ toValid Lot.zero.Owner = Lot.zero.Owner :=
    ⟨rfl, rfl⟩
  unfold jsonUnmarshal
  split
  · exact h0
  · exact h0
  · exact foldl_storeMember_valid _ _ h0
  · exact h0

/-- A decoded `Lot` has nothing but its exported fields, and these are valid
UTF-8. -/
theorem exported_of_jsonUnmarshal (data : Bytes) (asset : Lot) (err : Option GoError)
    (h : jsonUnmarshal data Lot.zero = (asset, err)) : asset.exported = asset := by
  have hs := jsonUnmarshal_sameHidden data Lot.zero
  have hv := jsonUnmarshal_valid data
  rw [h] at hs hv
  obtain ⟨h1, h2, h3, h4, h5, h6⟩ := hs
  obtain ⟨v1, v2⟩ := hv
  simp only at h1 h2 h3 h4 h5 h6 v1 v2
  cases asset
  simp_all [Lot.exported, Lot.zero]

/-! ## The operations, case by case -/

theorem AssetExists_stub (ctx : Stub) (id : GoString) : (AssetExists ctx id).2 = ctx := by
  unfold AssetExists
  split <;> rfl

theorem ReadAsset_stub (ctx : Stub) (id : GoString) : (ReadAsset ctx id).2 = ctx := by
  unfold ReadAsset
  split
  · rfl
  · rfl
  · split <;> rfl

theorem AssetExists_of_get (ctx : Stub) (id : GoString) (hget : ctx.getErr id = none) :
    AssetExists ctx id = (((lookup id ctx.state).isSome, none), ctx) := by
  simp [AssetExists, GetState, hget]

theorem AssetExists_of_getErr (ctx : Stub) (id : GoString) (e : StubError)
    (hget : ctx.getErr id = some e) :
    AssetExists ctx id
      = ((false, some (.errorf (go "failed to read from world state: " ++ e.msg))), ctx) := by
  simp [AssetExists, GetState, hget]

theorem ReadAsset_of_getErr (ctx : Stub) (id : GoString) (e : StubError)
    (hget : ctx.getErr id = some e) :
    ReadAsset ctx id
      = ((none, some (.errorf (go "failed to read from world state: " ++ e.msg))), ctx) := by
  simp [ReadAsset, GetState, hget]

theorem ReadAsset_of_absent (ctx : Stub) (id : GoString) (hget : ctx.getErr id = none)
    (habs : lookup id ctx.state = none) :
    ReadAsset ctx id = ((none, some (notFound id)), ctx) := by
  simp [ReadAsset, GetState, hget, habs, notFound]

theorem ReadAsset_of_present (ctx : Stub) (id : GoString) (data : Bytes)
    (hget : ctx.getErr id = none) (hpre : lookup id ctx.state = some data) :
    ReadAsset ctx id =
      (match jsonUnmarshal data Lot.zero with
        | (_, some err) => ((none, some err), ctx)
        | (asset, none) => ((some asset, none), ctx)) := by
  simp [ReadAsset, GetState, hget, hpre]

/-- What a successful `ReadAsset` tells about the stub. -/
theorem ReadAsset_ok (ctx : Stub) (id : GoString) (asset : Lot)
    (h : (ReadAsset ctx id).1 = (some asset, none)) :
    ctx.getErr id = none ∧
      ∃ data, lookup id ctx.state = some data ∧ jsonUnmarshal data Lot.zero = (asset, none) := by
  cases hget : ctx.getErr id with
  | some e => rw [ReadAsset_of_getErr ctx id e hget] at h; simp at h
  | none =>
    refine ⟨rfl, ?_⟩
    cases hl : lookup id ctx.state with
    | none => rw [ReadAsset_of_absent ctx id hget hl] at h; simp at h
    | some data =>
      refine ⟨data, rfl, ?_⟩
      rw [ReadAsset_of_present ctx id data hget hl] at h
      rcases hj : jsonUnmarshal data Lot.zero with ⟨a, _ | err⟩
      · rw [hj] at h
        simp only [Prod.mk.injEq, Option.some.injEq, and_true] at h
        rw [h]
      · rw [hj] at h
        simp at h

theorem CreateAsset_of_getErr (ctx : Stub) (ID nfId : GoString) (lotProducts : List LotProduct)
    (Owner : GoString) (OwnerId : GoInt) (lotType createdAt : GoString) (total : GoInt)
    (formatedAddress : GoString) (e : StubError) (hget : ctx.getErr ID = some e) :
    CreateAsset ctx ID nfId lotProducts Owner OwnerId lotType createdAt total formatedAddress
      = (some (.errorf (go "failed to read from world state: " ++ e.msg)), ctx) := by
  simp [CreateAsset, AssetExists_of_getErr ctx ID e hget]

theorem CreateAsset_of_present (ctx : Stub) (ID nfId : GoString) (lotProducts : List LotProduct)
    (Owner : GoString) (OwnerId : GoInt) (lotType createdAt : GoString) (total : GoInt)
    (formatedAddress : GoString) (hget : ctx.getErr ID = none)
    (hpre : (lookup ID ctx.state).isSome = true) :
    CreateAsset ctx ID nfId lotProducts Owner OwnerId lotType createdAt total formatedAddress
      = (some (alreadyExists ID), ctx) := by
  simp [CreateAsset, AssetExists_of_get ctx ID hget, hpre, alreadyExists]

theorem CreateAsset_of_absent (ctx : Stub) (ID nfId : GoString) (lotProducts : List LotProduct)
    (Owner : GoString) (OwnerId : GoInt) (lotType createdAt : GoString) (total : GoInt)
    (formatedAddress : GoString) (hget : ctx.getErr ID = none)
    (habs : lookup ID ctx.state = none) :
    CreateAsset ctx ID nfId lotProducts Owner OwnerId lotType createdAt total formatedAddress
      = (wrapStub (PutState ctx ID (jsonMarshal (mkLot ID nfId lotProducts Owner OwnerId lotType
            createdAt total formatedAddress)).1).1,
          (PutState ctx ID (jsonMarshal (mkLot ID nfId lotProducts Owner OwnerId lotType
            createdAt total formatedAddress)).1).2) := by
  simp [CreateAsset, AssetExists_of_get ctx ID hget, habs, jsonMarshal, mkLot]

theorem PutState_of_ok (ctx : Stub) (key : GoString) (value : Bytes)
    (h : ctx.putErr key value = none) :
    PutState ctx key value = (none, { ctx with state := insert key value ctx.state }) := by
  simp [PutState, h]

theorem PutState_of_err (ctx : Stub) (key : GoString) (value : Bytes) (e : StubError)
    (h : ctx.putErr key value = some e) : PutState ctx key value = (some e, ctx) := by
  simp [PutState, h]

/-- What a successful `CreateAsset` tells about the stub before and after. -/
theorem CreateAsset_ok (ctx : Stub) (ID nfId : GoString) (lotProducts : List LotProduct)
    (Owner : GoString) (OwnerId : GoInt) (lotType createdAt : GoString) (total : GoInt)
    (formatedAddress : GoString)
    (h : (CreateAsset ctx ID nfId lotProducts Owner OwnerId lotType createdAt total
      formatedAddress).1 = none) :
    ctx.getErr ID = none ∧ lookup ID ctx.state = none ∧
      (CreateAsset ctx ID nfId lotProducts Owner OwnerId lotType createdAt total
        formatedAddress).2
        = { ctx with state := insert ID (jsonMarshal (mkLot ID nfId lotProducts Owner OwnerId
            lotType createdAt total formatedAddress)).1 ctx.state } := by
  cases hget : ctx.getErr ID with
  | some e => rw [CreateAsset_of_getErr _ _ _ _ _ _ _ _ _ _ e hget] at h; simp at h
  | none =>
    cases hl : lookup ID ctx.state with
    | some data =>
      rw [CreateAsset_of_present _ _ _ _ _ _ _ _ _ _ hget (by simp [hl])] at h
      simp at h
    | none =>
      refine ⟨rfl, rfl, ?_⟩
      rw [CreateAsset_of_absent _ _ _ _ _ _ _ _ _ _ hget hl] at h ⊢
      cases hp : ctx.putErr ID (jsonMarshal (mkLot ID nfId lotProducts Owner OwnerId lotType
          createdAt total formatedAddress)).1 with
      | some e => rw [PutState_of_err _ _ _ e hp] at h; simp [wrapStub] at h
      | none => rw [PutState_of_ok _ _ _ hp]

/-- After a successful `CreateAsset`, `ReadAsset` on the stub it leaves gives the
exported fields of the struct that was built. -/
theorem ReadAsset_after_CreateAsset (ctx : Stub) (ID nfId : GoString)
    (lotProducts : List LotProduct) (Owner : GoString) (OwnerId : GoInt)
    (lotType createdAt : GoString) (total : GoInt) (formatedAddress : GoString)
    (h : (CreateAsset ctx ID nfId lotProducts Owner OwnerId lotType createdAt total
      formatedAddress).1 = none) :
    (ReadAsset (CreateAsset ctx ID nfId lotProducts Owner OwnerId lotType createdAt total
      formatedAddress).2 ID).1
      = (some (mkLot ID nfId lotProducts Owner OwnerId lotType createdAt total
          formatedAddress).exported, none) := by
  obtain ⟨hget, -, hst⟩ := CreateAsset_ok _ _ _ _ _ _ _ _ _ _ h
  rw [hst, ReadAsset_of_present { ctx with state := insert ID _ ctx.state } ID _ hget
    (lookup_insert_self _ _ _), jsonUnmarshal_jsonMarshal]


theorem ReadAsset_eq (ctx : Stub) (id : GoString) :
    ReadAsset ctx id = ((ReadAsset ctx id).1, ctx) :=
  Prod.ext rfl (ReadAsset_stub ctx id)

theorem TransferAsset_of_read (ctx : Stub) (id : GoString) (asset : Lot) (newOwner : GoString)
    (newOwnerId : GoInt) (h : (ReadAsset ctx id).1 = (some asset, none)) :
    TransferAsset ctx id newOwner newOwnerId
      = (wrapStub (PutState ctx id
            (jsonMarshal { asset with Owner := newOwner, OwnerId := newOwnerId }).1).1,
          (PutState ctx id
            (jsonMarshal { asset with Owner := newOwner, OwnerId := newOwnerId }).1).2) := by
  have h2 := ReadAsset_eq ctx id
  rw [h] at h2
  simp [TransferAsset, h2, jsonMarshal]

theorem TransferAsset_of_readErr (ctx : Stub) (id : GoString) (newOwner : GoString)
    (newOwnerId : GoInt) (r : Option Lot) (err : GoError)
    (h : (ReadAsset ctx id).1 = (r, some err)) :
    TransferAsset ctx id newOwner newOwnerId = (some err, ctx) := by
  have h2 := ReadAsset_eq ctx id
  rw [h] at h2
  simp [TransferAsset, h2]

/-- The operation `ReadAsset` never returns a nil `Lot` without an error. -/
theorem ReadAsset_not_nil_nil (ctx : Stub) (id : GoString) :
    (ReadAsset ctx id).1 ≠ (none, none) := by
  unfold ReadAsset
  split
  · simp
  · simp
  · split <;> simp

/-! ## Transfers -/

/-- A transfer whose read and write succeed: the stub it leaves. -/
theorem TransferAsset_written (ctx : Stub) (id : GoString) (asset : Lot) (newOwner : GoString)
    (newOwnerId : GoInt) (hread : (ReadAsset ctx id).1 = (some asset, none))
    (hput : ctx.putErr id
      (jsonMarshal { asset with Owner := newOwner, OwnerId := newOwnerId }).1 = none) :
    TransferAsset ctx id newOwner newOwnerId
      = (none, { ctx with
          state := insert id
            (jsonMarshal { asset with Owner := newOwner, OwnerId := newOwnerId }).1
            ctx.state }) := by
  rw [TransferAsset_of_read ctx id asset newOwner newOwnerId hread, PutState_of_ok _ _ _ hput]
  rfl

/-- A transfer whose read succeeds and whose write fails: the error of the
stub, and the stub as it was. -/
theorem TransferAsset_rejected (ctx : Stub) (id : GoString) (asset : Lot) (newOwner : GoString)
    (newOwnerId : GoInt) (e : StubError) (hread : (ReadAsset ctx id).1 = (some asset, none))
    (hput : ctx.putErr id
      (jsonMarshal { asset with Owner := newOwner, OwnerId := newOwnerId }).1 = some e) :
    TransferAsset ctx id newOwner newOwnerId = (some (.stub e), ctx) := by
  rw [TransferAsset_of_read ctx id asset newOwner newOwnerId hread, PutState_of_err _ _ _ e hput]
  rfl

/-- A transfer whose read succeeds and whose write fails leaves the stub as
it was. -/
theorem TransferAsset_stub_of_rejected (ctx : Stub) (id : GoString) (asset : Lot)
    (newOwner : GoString) (newOwnerId : GoInt)
    (hread : (ReadAsset ctx id).1 = (some asset, none))
    (hput : ctx.putErr id
      (jsonMarshal { asset with Owner := newOwner, OwnerId := newOwnerId }).1 ≠ none) :
    (TransferAsset ctx id newOwner newOwnerId).2 = ctx := by
  cases hp : ctx.putErr id
      (jsonMarshal { asset with Owner := newOwner, OwnerId := newOwnerId }).1 with
  | none => exact absurd hp hput
  | some e => rw [TransferAsset_rejected ctx id asset newOwner newOwnerId e hread hp]

/-- Reading back the encoding of a `Lot`. -/
theorem ReadAsset_written (ctx : Stub) (id : GoString) (asset : Lot)
    (hget : ctx.getErr id = none) :
    (ReadAsset { ctx with state := insert id (jsonMarshal asset).1 ctx.state } id).1
      = (some asset.exported, none) := by
  rw [ReadAsset_of_present { ctx with state := insert id _ ctx.state } id _ hget
    (lookup_insert_self _ _ _), jsonUnmarshal_jsonMarshal]

theorem exported_with_owner (asset : Lot) (newOwner : GoString) (newOwnerId : GoInt)
    (hexp : asset.exported = asset) :
    ({ asset with Owner := newOwner, OwnerId := newOwnerId } : Lot).exported
      = { asset with Owner := toValid newOwner, OwnerId := newOwnerId } := by
  have h2 : ({ asset with Owner := newOwner, OwnerId := newOwnerId } : Lot).exported
      = { asset.exported with Owner := toValid newOwner, OwnerId := newOwnerId } := rfl
  rw [h2, hexp]

/-! ## Claims -/

/-- C1 (serialization round trip). The claim fails on the code: encoding
`sampleLot` and decoding the bytes succeeds, but the `Lot` obtained keeps
only `ID`, `Owner` and `OwnerId`; it differs from `sampleLot` in `nfId`,
`lotProducts`, `lotType`, `createdAt`, `total` and `formatedAddress`. -/
theorem C1_roundtrip_loses_fields :
    (jsonMarshal sampleLot).2 = none ∧
    jsonUnmarshal (jsonMarshal sampleLot).1 Lot.zero = (sampleLot.exported, none) ∧
    sampleLot.exported ≠ sampleLot ∧
    sampleLot.exported.nfId = [] ∧ sampleLot.exported.lotProducts = [] ∧
    sampleLot.exported.total = GoInt.zero := by
  refine ⟨rfl, jsonUnmarshal_jsonMarshal sampleLot, by decide, rfl, rfl, rfl⟩

/-- C2 (read after create). The claim fails on the code: on the empty world
state `CreateAsset("lot1", ...)` succeeds and `ReadAsset("lot1")` succeeds,
but the `Lot` read differs from the one built from the arguments: only
`ID`, `Owner` and `OwnerId` come back. -/
theorem C2_read_after_create_loses_fields :
    sampleCreate.1 = none ∧
    (ReadAsset sampleCreate.2 (go "lot1")).1 = (some sampleLot.exported, none) ∧
    sampleLot.exported ≠ sampleLot := by
  have h : sampleCreate.1 = none := by decide
  exact ⟨h, ReadAsset_after_CreateAsset _ _ _ _ _ _ _ _ _ _ h, by decide⟩

/-- C3 (create uniqueness). If `CreateAsset(id, args1)` succeeds, a following
`CreateAsset(id, args2)` fails with the already-exists error, leaves the
world state as it was, and the bytes under `id` are still the encoding
written by the first call. -/
theorem C3_create_twice (ctx : Stub) (id : GoString)
    (nfId1 : GoString) (lotProducts1 : List LotProduct) (Owner1 : GoString) (OwnerId1 : GoInt)
    (lotType1 createdAt1 : GoString) (total1 : GoInt) (formatedAddress1 : GoString)
    (nfId2 : GoString) (lotProducts2 : List LotProduct) (Owner2 : GoString) (OwnerId2 : GoInt)
    (lotType2 createdAt2 : GoString) (total2 : GoInt) (formatedAddress2 : GoString)
    (h : (CreateAsset ctx id nfId1 lotProducts1 Owner1 OwnerId1 lotType1 createdAt1 total1
      formatedAddress1).1 = none) :
    (CreateAsset (CreateAsset ctx id nfId1 lotProducts1 Owner1 OwnerId1 lotType1 createdAt1
        total1 formatedAddress1).2 id nfId2 lotProducts2 Owner2 OwnerId2 lotType2 createdAt2
        total2 formatedAddress2).1 = some (alreadyExists id) ∧
    (CreateAsset (CreateAsset ctx id nfId1 lotProducts1 Owner1 OwnerId1 lotType1 createdAt1
        total1 formatedAddress1).2 id nfId2 lotProducts2 Owner2 OwnerId2 lotType2 createdAt2
        total2 formatedAddress2).2
      = (CreateAsset ctx id nfId1 lotProducts1 Owner1 OwnerId1 lotType1 createdAt1 total1
        formatedAddress1).2 ∧
    lookup id (CreateAsset (CreateAsset ctx id nfId1 lotProducts1 Owner1 OwnerId1 lotType1
        createdAt1 total1 formatedAddress1).2 id nfId2 lotProducts2 Owner2 OwnerId2 lotType2
        createdAt2 total2 formatedAddress2).2.state
      = some (jsonMarshal (mkLot id nfId1 lotProducts1 Owner1 OwnerId1 lotType1 createdAt1
          total1 formatedAddress1)).1 := by
  obtain ⟨hget, -, hst⟩ := CreateAsset_ok _ _ _ _ _ _ _ _ _ _ h
  rw [hst]
  rw [CreateAsset_of_present { ctx with state := insert id _ ctx.state } id nfId2 lotProducts2
    Owner2 OwnerId2 lotType2 createdAt2 total2 formatedAddress2 hget
    (by simp [lookup_insert_self])]
  exact ⟨rfl, rfl, lookup_insert_self _ _ _⟩

/-- Witness of C3: two calls of `CreateAsset("lot1", ...)` on the empty world state. -/
theorem C3_create_twice_witness :
    sampleCreate.1 = none ∧
    (CreateAsset sampleCreate.2 (go "lot1") (go "nf2") [] (go "Carol") ⟨2, by decide⟩ (go "feed")
      (go "2021-02-02") ⟨5, by decide⟩ (go "Rua B")).1 = some (alreadyExists (go "lot1")) ∧
    (CreateAsset sampleCreate.2 (go "lot1") (go "nf2") [] (go "Carol") ⟨2, by decide⟩ (go "feed")
      (go "2021-02-02") ⟨5, by decide⟩ (go "Rua B")).2 = sampleCreate.2 ∧
    lookup (go "lot1") (CreateAsset sampleCreate.2 (go "lot1") (go "nf2") [] (go "Carol")
      ⟨2, by decide⟩ (go "feed") (go "2021-02-02") ⟨5, by decide⟩ (go "Rua B")).2.state
      = some (jsonMarshal sampleLot).1 :=
  ⟨by decide,
    C3_create_twice emptyStub (go "lot1") (go "nf1") sampleProducts (go "Bob") ⟨1, by decide⟩
      (go "food") (go "2020-01-01") ⟨100, by decide⟩ (go "Rua A") (go "nf2") [] (go "Carol")
      ⟨2, by decide⟩ (go "feed") (go "2021-02-02") ⟨5, by decide⟩ (go "Rua B") (by decide)⟩

/-- C4, as stated, fails on the code. On `faultyStub`, whose `PutState` fails,
`ReadAsset("lot1")` returns a `Lot` and `TransferAsset("lot1", "Alice", 7)` returns
the error of the stub. On the world state left by `sampleCreate`, where no
call of the stub fails, the transfer of `lot1` to the owner `invalidText`
(the bytes `61 ff 62`, of which `ff` is not valid UTF-8) succeeds, and the
`Lot` read afterwards has the owner `61 ef bf bd 62`, with U+FFFD in the
place of `ff`: not the `newOwner` that was given. -/
theorem C4_transfer_counterexample :
    (ReadAsset faultyStub (go "lot1")).1 = (some sampleLot.exported, none) ∧
    (TransferAsset faultyStub (go "lot1") (go "Alice") ⟨7, by decide⟩).1
      = some (.stub { msg := go "ledger unavailable" }) ∧
    (ReadAsset sampleCreate.2 (go "lot1")).1 = (some sampleLot.exported, none) ∧
    (TransferAsset sampleCreate.2 (go "lot1") invalidText ⟨7, by decide⟩).1 = none ∧
    (ReadAsset (TransferAsset sampleCreate.2 (go "lot1") invalidText ⟨7, by decide⟩).2
        (go "lot1")).1
      = (some { sampleLot.exported with
          Owner := [97, 239, 191, 189, 98]
          OwnerId := ⟨7, by decide⟩ }, none) ∧
    ([97, 239, 191, 189, 98] : GoString) ≠ invalidText := by
  refine ⟨by decide, by decide, by decide, by decide, by decide, by decide⟩

/-- C4, amended. When `ReadAsset(id)` returns a `Lot`: if the stub accepts the
write of the re-encoded record under `id`, `TransferAsset(id, newOwner,
newOwnerId)` succeeds and a following `ReadAsset(id)` returns that `Lot` with
`OwnerId` replaced by `newOwnerId`, `Owner` replaced by `newOwner` in which each
byte that is not part of valid UTF-8 is replaced by U+FFFD, and every
other field as it was; if the stub rejects the write, `TransferAsset`
returns the error of the stub and leaves the stub as it was. A `newOwner`
that is valid UTF-8 is stored as it is. The fields that are not exported
are zero in the `Lot` that `ReadAsset` returns, before and after. -/
theorem C4_transfer_then_read (ctx : Stub) (id : GoString) (asset : Lot) (newOwner : GoString)
    (newOwnerId : GoInt) (hread : (ReadAsset ctx id).1 = (some asset, none)) :
    (ctx.putErr id (jsonMarshal { asset with Owner := newOwner, OwnerId := newOwnerId }).1
        = none →
      (TransferAsset ctx id newOwner newOwnerId).1 = none ∧
      (ReadAsset (TransferAsset ctx id newOwner newOwnerId).2 id).1
        = (some { asset with Owner := toValid newOwner, OwnerId := newOwnerId }, none)) ∧
    (∀ e, ctx.putErr id (jsonMarshal { asset with Owner := newOwner, OwnerId := newOwnerId }).1
        = some e →
      TransferAsset ctx id newOwner newOwnerId = (some (.stub e), ctx)) ∧
    (validString newOwner = true → toValid newOwner = newOwner) ∧
    sameHidden asset Lot.zero := by
  obtain ⟨hget, data, -, hdec⟩ := ReadAsset_ok ctx id asset hread
  have hexp : asset.exported = asset := exported_of_jsonUnmarshal data asset none hdec
  have hzero : sameHidden asset Lot.zero := by
    have hs := jsonUnmarshal_sameHidden data Lot.zero
    rw [hdec] at hs
    exact hs
  refine ⟨?_, ?_, toValid_of_valid newOwner, hzero⟩
  · intro hput
    rw [TransferAsset_written ctx id asset newOwner newOwnerId hread hput]
    refine ⟨rfl, ?_⟩
    rw [ReadAsset_written ctx id _ hget, exported_with_owner asset newOwner newOwnerId hexp]
  · intro e hput
    exact TransferAsset_rejected ctx id asset newOwner newOwnerId e hread hput

/-- Witness of C4: the transfer of `lot1` to Alice on the world state left by
`sampleCreate`, where the write is accepted, and on `faultyStub`, where it
is rejected. -/
theorem C4_transfer_then_read_witness :
    (ReadAsset sampleCreate.2 (go "lot1")).1 = (some sampleLot.exported, none) ∧
    (TransferAsset sampleCreate.2 (go "lot1") (go "Alice") ⟨7, by decide⟩).1 = none ∧
    (ReadAsset (TransferAsset sampleCreate.2 (go "lot1") (go "Alice") ⟨7, by decide⟩).2
        (go "lot1")).1
      = (some { sampleLot.exported with
          Owner := toValid (go "Alice")
          OwnerId := ⟨7, by decide⟩ }, none) ∧
    toValid (go "Alice") = go "Alice" ∧
    (ReadAsset faultyStub (go "lot1")).1 = (some sampleLot.exported, none) ∧
    TransferAsset faultyStub (go "lot1") (go "Alice") ⟨7, by decide⟩
      = (some (.stub { msg := go "ledger unavailable" }), faultyStub) :=
  ⟨by decide,
    ((C4_transfer_then_read sampleCreate.2 (go "lot1") sampleLot.exported (go "Alice")
      ⟨7, by decide⟩ (by decide)).1 rfl).1,
    ((C4_transfer_then_read sampleCreate.2 (go "lot1") sampleLot.exported (go "Alice")
      ⟨7, by decide⟩ (by decide)).1 rfl).2,
    (C4_transfer_then_read sampleCreate.2 (go "lot1") sampleLot.exported (go "Alice")
      ⟨7, by decide⟩ (by decide)).2.2.1 (by decide),
    by decide,
    (C4_transfer_then_read faultyStub (go "lot1") sampleLot.exported (go "Alice")
      ⟨7, by decide⟩ (by decide)).2.1 { msg := go "ledger unavailable" } rfl⟩

/-- C5 (create, transfer, read). The claim fails on the code at its own
example: after `CreateAsset("lot1", ..., total = 100)` on the empty world
state, `AssetExists("lot1")` is true and `TransferAsset("lot1", "Alice", 7)`
succeeds, and `ReadAsset("lot1")` has `Owner = "Alice"` and `OwnerId = 7`,
but its `total` is 0, its `lotProducts` is empty and its `createdAt` is
empty, not the values given to `CreateAsset`. -/
theorem C5_scenario_loses_total :
    sampleCreate.1 = none ∧
    (AssetExists sampleCreate.2 (go "lot1")).1 = (true, none) ∧
    (TransferAsset sampleCreate.2 (go "lot1") (go "Alice") ⟨7, by decide⟩).1 = none ∧
    (ReadAsset (TransferAsset sampleCreate.2 (go "lot1") (go "Alice") ⟨7, by decide⟩).2
      (go "lot1")).1
      = (some { Lot.zero with ID := go "lot1", Owner := go "Alice", OwnerId := ⟨7, by decide⟩ },
          none) ∧
    ({ Lot.zero with ID := go "lot1", Owner := go "Alice", OwnerId := ⟨7, by decide⟩ } : Lot).total
      ≠ sampleLot.total ∧
    ({ Lot.zero with ID := go "lot1", Owner := go "Alice", OwnerId := ⟨7, by decide⟩ } :
      Lot).lotProducts ≠ sampleLot.lotProducts ∧
    ({ Lot.zero with ID := go "lot1", Owner := go "Alice", OwnerId := ⟨7, by decide⟩ } :
      Lot).createdAt ≠ sampleLot.createdAt := by
  refine ⟨by decide, by decide, by decide, by decide, by decide, by decide, by decide⟩

/-- C6 (not found). For a key that holds no value, the read of the stub
succeeding, `ReadAsset` and `TransferAsset` fail with the not-found error
and `AssetExists` returns false without an error. -/
theorem C6_not_found (ctx : Stub) (id newOwner : GoString) (newOwnerId : GoInt)
    (habs : lookup id ctx.state = none) (hget : ctx.getErr id = none) :
    (ReadAsset ctx id).1 = (none, some (notFound id)) ∧
    (TransferAsset ctx id newOwner newOwnerId).1 = some (notFound id) ∧
    (AssetExists ctx id).1 = (false, none) := by
  have hr := ReadAsset_of_absent ctx id hget habs
  refine ⟨by rw [hr], ?_, ?_⟩
  · rw [TransferAsset_of_readErr ctx id newOwner newOwnerId none (notFound id) (by rw [hr])]
  · rw [AssetExists_of_get ctx id hget, habs]
    rfl

/-- Witness of C6: the key `lot1` on the empty world state. -/
theorem C6_not_found_witness :
    lookup (go "lot1") emptyStub.state = none ∧ emptyStub.getErr (go "lot1") = none ∧
    (ReadAsset emptyStub (go "lot1")).1 = (none, some (notFound (go "lot1"))) ∧
    (TransferAsset emptyStub (go "lot1") (go "Alice") ⟨7, by decide⟩).1 = some (notFound
        (go "lot1")) ∧
    (AssetExists emptyStub (go "lot1")).1 = (false, none) :=
  ⟨rfl, rfl, C6_not_found emptyStub (go "lot1") (go "Alice") ⟨7, by decide⟩ rfl rfl⟩

/-- C7 (enumeration completeness). The claim fails on the code: after the one
`CreateAsset("lot1", ...)` on the empty world state, `GetAllAssets` succeeds
and returns one `Lot`, but that `Lot` is not the one built from the
arguments: it has only `ID`, `Owner` and `OwnerId`. -/
theorem C7_enumeration_loses_fields :
    sampleCreate.1 = none ∧
    (GetAllAssets sampleCreate.2).1 = ([sampleLot.exported], none) ∧
    sampleLot ∉ (GetAllAssets sampleCreate.2).1.1 := by
  refine ⟨by decide, by decide, by decide⟩

/-- C8 (create succeeds iff the key is free). When the stub's read and write
under `id` succeed, `CreateAsset(id, ...)` fails with the already-exists
error exactly when a value is stored under `id`; otherwise it succeeds and
the world state then holds under `id` the encoding of the `Lot` built from
the arguments. Encoding that `Lot` never fails. -/
theorem C8_create_iff_free (ctx : Stub) (id nfId : GoString) (lotProducts : List LotProduct)
    (Owner : GoString) (OwnerId : GoInt) (lotType createdAt : GoString) (total : GoInt)
    (formatedAddress : GoString) (hget : ctx.getErr id = none)
    (hput : ∀ value, ctx.putErr id value = none) :
    ((CreateAsset ctx id nfId lotProducts Owner OwnerId lotType createdAt total
        formatedAddress).1 = some (alreadyExists id)
      ↔ ∃ value, lookup id ctx.state = some value) ∧
    (lookup id ctx.state = none →
      (CreateAsset ctx id nfId lotProducts Owner OwnerId lotType createdAt total
        formatedAddress).1 = none ∧
      lookup id (CreateAsset ctx id nfId lotProducts Owner OwnerId lotType createdAt total
        formatedAddress).2.state
        = some (jsonMarshal (mkLot id nfId lotProducts Owner OwnerId lotType createdAt total
            formatedAddress)).1) ∧
    (jsonMarshal (mkLot id nfId lotProducts Owner OwnerId lotType createdAt total
      formatedAddress)).2 = none := by
  have hfree : lookup id ctx.state = none →
      CreateAsset ctx id nfId lotProducts Owner OwnerId lotType createdAt total formatedAddress
        = (none, { ctx with state := insert id (jsonMarshal (mkLot id nfId lotProducts Owner
            OwnerId lotType createdAt total formatedAddress)).1 ctx.state }) := by
    intro habs
    rw [CreateAsset_of_absent _ _ _ _ _ _ _ _ _ _ hget habs, PutState_of_ok _ _ _ (hput _)]
    rfl
  refine ⟨⟨?_, ?_⟩, ?_, rfl⟩
  · intro h
    cases hl : lookup id ctx.state with
    | some value => exact ⟨value, rfl⟩
    | none => rw [hfree hl] at h; simp at h
  · rintro ⟨value, hv⟩
    rw [CreateAsset_of_present _ _ _ _ _ _ _ _ _ _ hget (by simp [hv])]
  · intro habs
    rw [hfree habs]
    exact ⟨rfl, lookup_insert_self _ _ _⟩

/-- Witness of C8: `CreateAsset("lot2", ...)` on the world state left by
`sampleCreate`, where `lot2` is free. -/
theorem C8_create_iff_free_witness :
    sampleCreate.2.getErr (go "lot2") = none ∧
    (∀ value, sampleCreate.2.putErr (go "lot2") value = none) ∧
    lookup (go "lot2") sampleCreate.2.state = none ∧
    (CreateAsset sampleCreate.2 (go "lot2") (go "nf2") [] (go "Carol") ⟨2, by decide⟩ (go "feed")
      (go "2021-02-02") ⟨5, by decide⟩ (go "Rua B")).1 = none ∧
    lookup (go "lot2") (CreateAsset sampleCreate.2 (go "lot2") (go "nf2") [] (go "Carol")
      ⟨2, by decide⟩ (go "feed") (go "2021-02-02") ⟨5, by decide⟩ (go "Rua B")).2.state
      = some (jsonMarshal (mkLot (go "lot2") (go "nf2") [] (go "Carol") ⟨2, by decide⟩ (go "feed")
          (go "2021-02-02") ⟨5, by decide⟩ (go "Rua B"))).1 :=
  ⟨rfl, fun _ => rfl, by decide,
    (C8_create_iff_free sampleCreate.2 (go "lot2") (go "nf2") [] (go "Carol") ⟨2, by decide⟩
      (go "feed") (go "2021-02-02") ⟨5, by decide⟩ (go "Rua B") rfl (fun _ => rfl)).2.1 (by decide)⟩

/-- C9 (existence is presence of bytes). When the stub's read succeeds,
`AssetExists(id)` returns true exactly when some value is stored under `id`
and false otherwise, never an error, whatever the bytes are; and there
is a world state on which `AssetExists` is true while `ReadAsset` fails with
an error of the JSON decoder. -/
theorem C9_exists_is_presence (ctx : Stub) (id : GoString) (hget : ctx.getErr id = none) :
    ((AssetExists ctx id).1 = (true, none) ↔ ∃ value, lookup id ctx.state = some value) ∧
    ((AssetExists ctx id).1 = (false, none) ↔ lookup id ctx.state = none) ∧
    (∃ (ctx1 : Stub) (id1 : GoString) (e : JsonError),
      (AssetExists ctx1 id1).1 = (true, none) ∧
      (ReadAsset ctx1 id1).1 = (none, some (GoError.json e))) := by
  rw [AssetExists_of_get ctx id hget]
  refine ⟨?_, ?_, ⟨corruptStub, (go "lot1"), JsonError.syntaxError, by decide, by decide⟩⟩
  · cases lookup id ctx.state <;> simp
  · cases lookup id ctx.state <;> simp

/-- Witness of C9: the key `lot1` of a world state whose value under `lot1` is
not JSON. -/
theorem C9_exists_is_presence_witness :
    corruptStub.getErr (go "lot1") = none ∧
    ((AssetExists corruptStub (go "lot1")).1 = (true, none)
      ↔ ∃ value, lookup (go "lot1") corruptStub.state = some value) ∧
    (AssetExists corruptStub (go "lot1")).1 = (true, none) :=
  ⟨rfl, (C9_exists_is_presence corruptStub (go "lot1") rfl).1,
    (C9_exists_is_presence corruptStub (go "lot1") rfl).1.2 ⟨go "oops", rfl⟩⟩

theorem CreateAsset_failure_stub (ctx : Stub) (ID nfId : GoString)
    (lotProducts : List LotProduct) (Owner : GoString) (OwnerId : GoInt)
    (lotType createdAt : GoString) (total : GoInt) (formatedAddress : GoString)
    (h : (CreateAsset ctx ID nfId lotProducts Owner OwnerId lotType createdAt total
      formatedAddress).1 ≠ none) :
    (CreateAsset ctx ID nfId lotProducts Owner OwnerId lotType createdAt total
      formatedAddress).2 = ctx := by
  cases hget : ctx.getErr ID with
  | some e => rw [CreateAsset_of_getErr _ _ _ _ _ _ _ _ _ _ e hget]
  | none =>
    cases hl : lookup ID ctx.state with
    | some data => rw [CreateAsset_of_present _ _ _ _ _ _ _ _ _ _ hget (by simp [hl])]
    | none =>
      rw [CreateAsset_of_absent _ _ _ _ _ _ _ _ _ _ hget hl] at h ⊢
      cases hp : ctx.putErr ID (jsonMarshal (mkLot ID nfId lotProducts Owner OwnerId lotType
          createdAt total formatedAddress)).1 with
      | some e => rw [PutState_of_err _ _ _ e hp]
      | none => rw [PutState_of_ok _ _ _ hp] at h; exact absurd rfl h

theorem TransferAsset_failure_stub (ctx : Stub) (id newOwner : GoString) (newOwnerId : GoInt)
    (h : (TransferAsset ctx id newOwner newOwnerId).1 ≠ none) :
    (TransferAsset ctx id newOwner newOwnerId).2 = ctx := by
  rcases hr : (ReadAsset ctx id).1 with ⟨r, _ | err⟩
  · cases r with
    | none => exact absurd hr (ReadAsset_not_nil_nil ctx id)
    | some asset =>
      rw [TransferAsset_of_read ctx id asset newOwner newOwnerId hr] at h ⊢
      cases hp : ctx.putErr id
          (jsonMarshal { asset with Owner := newOwner, OwnerId := newOwnerId }).1 with
      | some e => rw [PutState_of_err _ _ _ e hp]
      | none => rw [PutState_of_ok _ _ _ hp] at h; exact absurd rfl h
  · rw [TransferAsset_of_readErr ctx id newOwner newOwnerId r err hr]

theorem GetAllAssets_stub (ctx : Stub) : (GetAllAssets ctx).2 = ctx := by
  unfold GetAllAssets
  split <;> rfl

theorem getAllLoop_failure (ctx : Stub) (items : List (GoString × Bytes)) :
    ∀ (pos : Nat) (assets : List Lot), (getAllLoop ctx pos items assets).2 ≠ none →
      (getAllLoop ctx pos items assets).1 = [] := by
  induction items with
  | nil => intro pos assets h; simp [getAllLoop] at h
  | cons kv rest ih =>
    intro pos assets h
    cases hn : ctx.nextErr pos with
    | some e => simp [getAllLoop, hn]
    | none =>
      rcases hj : jsonUnmarshal kv.2 Lot.zero with ⟨a, _ | err⟩
      · simp only [getAllLoop, hn, hj] at h ⊢
        exact ih _ _ h
      · simp [getAllLoop, hn, hj]

theorem GetAllAssets_failure (ctx : Stub) (h : (GetAllAssets ctx).1.2 ≠ none) :
    (GetAllAssets ctx).1.1 = [] := by
  unfold GetAllAssets at h ⊢
  split
  · rfl
  · rename_i heq
    rw [heq] at h
    exact getAllLoop_failure ctx _ 0 [] h

theorem ReadAsset_failure (ctx : Stub) (id : GoString) (h : (ReadAsset ctx id).1.2 ≠ none) :
    (ReadAsset ctx id).1.1 = none := by
  cases hget : ctx.getErr id with
  | some e => rw [ReadAsset_of_getErr ctx id e hget]
  | none =>
    cases hl : lookup id ctx.state with
    | none => rw [ReadAsset_of_absent ctx id hget hl]
    | some data =>
      rw [ReadAsset_of_present ctx id data hget hl] at h ⊢
      rcases hj : jsonUnmarshal data Lot.zero with ⟨a, _ | err⟩
      · rw [hj] at h; exact absurd rfl h
      · rfl

theorem AssetExists_failure (ctx : Stub) (id : GoString) (h : (AssetExists ctx id).1.2 ≠ none) :
    (AssetExists ctx id).1.1 = false := by
  cases hget : ctx.getErr id with
  | some e => rw [AssetExists_of_getErr ctx id e hget]
  | none => rw [AssetExists_of_get ctx id hget] at h; exact absurd rfl h

/-- C10 (failure atomicity). Whenever `CreateAsset` or `TransferAsset` returns
an error the stub after the call is the stub before it; `ReadAsset`,
`AssetExists`, `GetAllAssets` and `InitLedger` leave the stub as it was in
every case, and `InitLedger` never fails. No operation returns a result
together with an error: with an error `ReadAsset` returns no `Lot`,
`AssetExists` returns false and `GetAllAssets` returns no slice. -/
theorem C10_failure_atomicity (ctx : Stub) (ID nfId : GoString) (lotProducts : List LotProduct)
    (Owner : GoString) (OwnerId : GoInt) (lotType createdAt : GoString) (total : GoInt)
    (formatedAddress : GoString) (id newOwner : GoString) (newOwnerId : GoInt) :
    ((CreateAsset ctx ID nfId lotProducts Owner OwnerId lotType createdAt total
        formatedAddress).1 ≠ none →
      (CreateAsset ctx ID nfId lotProducts Owner OwnerId lotType createdAt total
        formatedAddress).2 = ctx) ∧
    ((TransferAsset ctx id newOwner newOwnerId).1 ≠ none →
      (TransferAsset ctx id newOwner newOwnerId).2 = ctx) ∧
    (ReadAsset ctx id).2 = ctx ∧
    (AssetExists ctx id).2 = ctx ∧
    (GetAllAssets ctx).2 = ctx ∧
    InitLedger ctx = (none, ctx) ∧
    ((ReadAsset ctx id).1.2 ≠ none → (ReadAsset ctx id).1.1 = none) ∧
    ((AssetExists ctx id).1.2 ≠ none → (AssetExists ctx id).1.1 = false) ∧
    ((GetAllAssets ctx).1.2 ≠ none → (GetAllAssets ctx).1.1 = []) :=
  ⟨CreateAsset_failure_stub ctx ID nfId lotProducts Owner OwnerId lotType createdAt total
      formatedAddress,
    TransferAsset_failure_stub ctx id newOwner newOwnerId, ReadAsset_stub ctx id,
    AssetExists_stub ctx id, GetAllAssets_stub ctx, rfl, ReadAsset_failure ctx id,
    AssetExists_failure ctx id, GetAllAssets_failure ctx⟩

/-- Witness of C10: on `faultyStub` the write under `lot2` fails, the read
under `bad` fails and the second stored value is not JSON, so that all
five operations fail; the stub is left as it was and no result comes
with the errors. -/
theorem C10_failure_atomicity_witness :
    (CreateAsset faultyStub (go "lot2") (go "nf2") [] (go "Carol") ⟨2, by decide⟩ (go "feed")
      (go "2021-02-02") ⟨5, by decide⟩ (go "Rua B")).1 ≠ none ∧
    (TransferAsset faultyStub (go "lot1") (go "Alice") ⟨7, by decide⟩).1 ≠ none ∧
    (ReadAsset faultyStub (go "lot1")).1.2 = none ∧
    (ReadAsset faultyStub (go "bad")).1.2 ≠ none ∧
    (AssetExists faultyStub (go "bad")).1.2 ≠ none ∧
    (GetAllAssets faultyStub).1.2 ≠ none ∧
    (CreateAsset faultyStub (go "lot2") (go "nf2") [] (go "Carol") ⟨2, by decide⟩ (go "feed")
      (go "2021-02-02") ⟨5, by decide⟩ (go "Rua B")).2 = faultyStub ∧
    (TransferAsset faultyStub (go "lot1") (go "Alice") ⟨7, by decide⟩).2 = faultyStub ∧
    (ReadAsset faultyStub (go "bad")).1.1 = none ∧
    (AssetExists faultyStub (go "bad")).1.1 = false ∧
    (GetAllAssets faultyStub).1.1 = [] :=
  ⟨by decide, by decide, by decide, by decide, by decide, by decide,
    (C10_failure_atomicity faultyStub (go "lot2") (go "nf2") [] (go "Carol") ⟨2, by decide⟩
      (go "feed") (go "2021-02-02") ⟨5, by decide⟩ (go "Rua B") (go "lot1") (go "Alice")
      ⟨7, by decide⟩).1 (by decide),
    (C10_failure_atomicity faultyStub (go "lot2") (go "nf2") [] (go "Carol") ⟨2, by decide⟩
      (go "feed") (go "2021-02-02") ⟨5, by decide⟩ (go "Rua B") (go "lot1") (go "Alice")
      ⟨7, by decide⟩).2.1 (by decide),
    (C10_failure_atomicity faultyStub (go "lot2") (go "nf2") [] (go "Carol") ⟨2, by decide⟩
      (go "feed") (go "2021-02-02") ⟨5, by decide⟩ (go "Rua B") (go "bad") (go "Alice")
      ⟨7, by decide⟩).2.2.2.2.2.2.1 (by decide),
    (C10_failure_atomicity faultyStub (go "lot2") (go "nf2") [] (go "Carol") ⟨2, by decide⟩
      (go "feed") (go "2021-02-02") ⟨5, by decide⟩ (go "Rua B") (go "bad") (go "Alice")
      ⟨7, by decide⟩).2.2.2.2.2.2.2.1 (by decide),
    (C10_failure_atomicity faultyStub (go "lot2") (go "nf2") [] (go "Carol") ⟨2, by decide⟩
      (go "feed") (go "2021-02-02") ⟨5, by decide⟩ (go "Rua B") (go "bad") (go "Alice")
      ⟨7, by decide⟩).2.2.2.2.2.2.2.2 (by decide)⟩

/-! ## Writes, key by key -/

theorem insert_insert (key : GoString) (v1 v2 : Bytes) (l : List (GoString × Bytes)) :
    insert key v2 (insert key v1 l) = insert key v2 l := by
  induction l with
  | nil => simp [insert]
  | cons kv rest ih =>
    obtain ⟨k, v⟩ := kv
    by_cases h1 : k = key
    · simp [insert, h1]
    · by_cases h2 : key < k
      · simp [insert, h1, h2]
      · simp [insert, h1, h2, ih]

/-- The stub `CreateAsset` leaves: the one it was given, or that one with the
encoding of the new `Lot` written under a key that held no value. -/
theorem CreateAsset_cases (ctx : Stub) (ID nfId : GoString) (lotProducts : List LotProduct)
    (Owner : GoString) (OwnerId : GoInt) (lotType createdAt : GoString) (total : GoInt)
    (formatedAddress : GoString) :
    (CreateAsset ctx ID nfId lotProducts Owner OwnerId lotType createdAt total
      formatedAddress).2 = ctx ∨
    (lookup ID ctx.state = none ∧
      (CreateAsset ctx ID nfId lotProducts Owner OwnerId lotType createdAt total
        formatedAddress).2
        = { ctx with state := insert ID (jsonMarshal (mkLot ID nfId lotProducts Owner OwnerId
            lotType createdAt total formatedAddress)).1 ctx.state }) := by
  by_cases h : (CreateAsset ctx ID nfId lotProducts Owner OwnerId lotType createdAt total
      formatedAddress).1 = none
  · obtain ⟨-, habs, hst⟩ := CreateAsset_ok _ _ _ _ _ _ _ _ _ _ h
    exact Or.inr ⟨habs, hst⟩
  · exact Or.inl (CreateAsset_failure_stub _ _ _ _ _ _ _ _ _ _ h)

/-- The stub `TransferAsset` leaves: the one it was given, or that one with the
re-encoded `Lot` written under the key it was read from. -/
theorem TransferAsset_cases (ctx : Stub) (id newOwner : GoString) (newOwnerId : GoInt) :
    (TransferAsset ctx id newOwner newOwnerId).2 = ctx ∨
    ∃ asset, (ReadAsset ctx id).1 = (some asset, none) ∧
      (TransferAsset ctx id newOwner newOwnerId).1 = none ∧
      (TransferAsset ctx id newOwner newOwnerId).2
        = { ctx with
            state := insert id
              (jsonMarshal { asset with Owner := newOwner, OwnerId := newOwnerId }).1
              ctx.state } := by
  by_cases h : (TransferAsset ctx id newOwner newOwnerId).1 = none
  · rcases hr : (ReadAsset ctx id).1 with ⟨r, _ | err⟩
    · cases r with
      | none => exact absurd hr (ReadAsset_not_nil_nil ctx id)
      | some asset =>
        refine Or.inr ⟨asset, rfl, h, ?_⟩
        rw [TransferAsset_of_read ctx id asset newOwner newOwnerId hr] at h ⊢
        cases hp : ctx.putErr id
            (jsonMarshal { asset with Owner := newOwner, OwnerId := newOwnerId }).1 with
        | some e => rw [PutState_of_err _ _ _ e hp] at h; simp [wrapStub] at h
        | none => rw [PutState_of_ok _ _ _ hp]
    · rw [TransferAsset_of_readErr ctx id newOwner newOwnerId r err hr] at h
      simp at h
  · exact Or.inl (TransferAsset_failure_stub ctx id newOwner newOwnerId h)

/-! ## The range scan -/

theorem GetStateByRange_all (ctx : Stub) (h : ctx.rangeErr = none) :
    GetStateByRange ctx (go "") (go "") = (ctx.state, none) := by
  have h0 : go "" = [] := rfl
  simp [GetStateByRange, h, h0]

theorem GetAllAssets_of_rangeErr (ctx : Stub) (e : StubError) (h : ctx.rangeErr = some e) :
    GetAllAssets ctx = (([], some (.stub e)), ctx) := by
  simp [GetAllAssets, GetStateByRange, h]

theorem GetAllAssets_of_range (ctx : Stub) (h : ctx.rangeErr = none) :
    GetAllAssets ctx = (getAllLoop ctx 0 ctx.state [], ctx) := by
  simp [GetAllAssets, GetStateByRange_all ctx h]

theorem getAllLoop_ok (ctx : Stub) (hnext : ∀ pos, ctx.nextErr pos = none)
    (items : List (GoString × Bytes)) :
    ∀ (pos : Nat) (assets : List Lot), (∀ kv ∈ items, (decodePair kv).2 = none) →
      getAllLoop ctx pos items assets = (assets ++ items.map (fun kv => (decodePair kv).1), none) :=
          by
  induction items with
  | nil => intro pos assets _; simp [getAllLoop]
  | cons kv rest ih =>
    intro pos assets hall
    have hkv : (decodePair kv).2 = none := hall kv (List.mem_cons_self _ _)
    rcases hj : jsonUnmarshal kv.2 Lot.zero with ⟨a, e⟩
    have he : e = none := by
      have : (jsonUnmarshal kv.2 Lot.zero).2 = none := hkv
      rw [hj] at this
      exact this
    subst he
    have hd : (decodePair kv).1 = a := by
      show (jsonUnmarshal kv.2 Lot.zero).1 = a
      rw [hj]
    simp only [getAllLoop, hnext pos, hj]
    rw [ih (pos + 1) (assets ++ [a]) (fun kv1 h1 => hall kv1 (List.mem_cons_of_mem _ h1))]
    simp [hd]

theorem getAllLoop_bad (ctx : Stub) (items : List (GoString × Bytes)) :
    ∀ (pos : Nat) (assets : List Lot), (∃ kv ∈ items, (decodePair kv).2 ≠ none) →
      (getAllLoop ctx pos items assets).2 ≠ none := by
  induction items with
  | nil => intro pos assets h; simp at h
  | cons kv rest ih =>
    intro pos assets h
    cases hn : ctx.nextErr pos with
    | some e => simp [getAllLoop, hn]
    | none =>
      rcases hj : jsonUnmarshal kv.2 Lot.zero with ⟨a, _ | err⟩
      · simp only [getAllLoop, hn, hj]
        apply ih
        obtain ⟨kv1, hmem, hbad⟩ := h
        rcases List.mem_cons.mp hmem with heq | hin
        · subst heq
          exact absurd (show (decodePair kv1).2 = none by
            show (jsonUnmarshal kv1.2 Lot.zero).2 = none
            rw [hj]) hbad
        · exact ⟨kv1, hin, hbad⟩
      · simp [getAllLoop, hn, hj]

theorem getAllLoop_nextErr (ctx : Stub) (items : List (GoString × Bytes)) :
    ∀ (pos : Nat) (assets : List Lot),
      (∃ i, i < items.length ∧ ctx.nextErr (pos + i) ≠ none) →
      (getAllLoop ctx pos items assets).2 ≠ none := by
  induction items with
  | nil => intro pos assets h; obtain ⟨i, hi, -⟩ := h; simp at hi
  | cons kv rest ih =>
    intro pos assets h
    cases hn : ctx.nextErr pos with
    | some e => simp [getAllLoop, hn]
    | none =>
      rcases hj : jsonUnmarshal kv.2 Lot.zero with ⟨a, _ | err⟩
      · simp only [getAllLoop, hn, hj]
        apply ih
        obtain ⟨i, hi, hbad⟩ := h
        cases i with
        | zero => rw [Nat.add_zero, hn] at hbad; exact absurd rfl hbad
        | succ j =>
          refine ⟨j, by simpa using hi, ?_⟩
          have : pos + 1 + j = pos + (j + 1) := by omega
          rw [this]
          exact hbad
      · simp [getAllLoop, hn, hj]

/-- C11 (single-key write frame). `CreateAsset(id, ...)` and `TransferAsset(id, ...)`
leave the bytes under every key other than `id` as they were; `ReadAsset`,
`AssetExists`, `GetAllAssets` and `InitLedger` leave the whole stub as it was;
`InitLedger` succeeds on every stub and running it again changes nothing. -/
theorem C11_single_key_frame (ctx : Stub) (ID nfId : GoString) (lotProducts : List LotProduct)
    (Owner : GoString) (OwnerId : GoInt) (lotType createdAt : GoString) (total : GoInt)
    (formatedAddress : GoString) (id newOwner : GoString) (newOwnerId : GoInt) (other : GoString) :
    (other ≠ ID →
      lookup other (CreateAsset ctx ID nfId lotProducts Owner OwnerId lotType createdAt total
        formatedAddress).2.state = lookup other ctx.state) ∧
    (other ≠ id →
      lookup other (TransferAsset ctx id newOwner newOwnerId).2.state = lookup other ctx.state) ∧
    (ReadAsset ctx id).2 = ctx ∧
    (AssetExists ctx id).2 = ctx ∧
    (GetAllAssets ctx).2 = ctx ∧
    InitLedger ctx = (none, ctx) ∧
    InitLedger (InitLedger ctx).2 = InitLedger ctx := by
  refine ⟨?_, ?_, ReadAsset_stub ctx id, AssetExists_stub ctx id, GetAllAssets_stub ctx, rfl, rfl⟩
  · intro hne
    rcases CreateAsset_cases ctx ID nfId lotProducts Owner OwnerId lotType createdAt total
      formatedAddress with h | ⟨-, h⟩
    · rw [h]
    · rw [h]
      exact lookup_insert_of_ne _ _ _ _ hne
  · intro hne
    rcases TransferAsset_cases ctx id newOwner newOwnerId with h | ⟨asset, -, -, h⟩
    · rw [h]
    · rw [h]
      exact lookup_insert_of_ne _ _ _ _ hne

/-- Witness of C11: creating `lot2` next to `lot1` leaves the bytes under `lot1`,
and transferring `lot1` in a store that also holds `lot2` leaves the bytes
under `lot2`. -/
theorem C11_single_key_frame_witness :
    go "lot1" ≠ go "lot2" ∧ go "lot2" ≠ go "lot1" ∧
    (CreateAsset sampleCreate.2 (go "lot2") (go "nf2") [] (go "Carol") ⟨2, by decide⟩ (go "feed")
      (go "2021-02-02") ⟨5, by decide⟩ (go "Rua B")).1 = none ∧
    lookup (go "lot1") (CreateAsset sampleCreate.2 (go "lot2") (go "nf2") [] (go "Carol")
      ⟨2, by decide⟩ (go "feed") (go "2021-02-02") ⟨5, by decide⟩ (go "Rua B")).2.state = lookup
      (go "lot1") sampleCreate.2.state ∧
    (TransferAsset twoLots (go "lot1") (go "Alice") ⟨7, by decide⟩).2.state ≠ twoLots.state ∧
    lookup (go "lot2") (TransferAsset twoLots (go "lot1") (go "Alice") ⟨7, by decide⟩).2.state
      = lookup (go "lot2") twoLots.state :=
  ⟨by decide, by decide, by decide,
    (C11_single_key_frame sampleCreate.2 (go "lot2") (go "nf2") [] (go "Carol") ⟨2, by decide⟩
      (go "feed") (go "2021-02-02") ⟨5, by decide⟩ (go "Rua B") (go "lot1") (go "Alice")
      ⟨7, by decide⟩ (go "lot1")).1 (by decide),
    by decide,
    (C11_single_key_frame twoLots (go "lot2") (go "nf2") [] (go "Carol") ⟨2, by decide⟩ (go "feed")
      (go "2021-02-02") ⟨5, by decide⟩ (go "Rua B") (go "lot1") (go "Alice") ⟨7, by decide⟩
          (go "lot2")).2.1
      (by decide)⟩

/-- C12, as stated, fails on the code in its second half. Every value stored
in `scanFailStub` and in `nextFailStub` decodes as a `Lot`, yet `GetAllAssets`
returns an error on both: on the first `GetStateByRange` fails, on the
second the second call of `Next` fails. -/
theorem C12_scan_failure_counterexample :
    (∀ kv ∈ scanFailStub.state, (decodePair kv).2 = none) ∧
    (GetAllAssets scanFailStub).1
      = ([], some (.stub { msg := go "ledger unavailable" })) ∧
    (∀ kv ∈ nextFailStub.state, (decodePair kv).2 = none) ∧
    (GetAllAssets nextFailStub).1
      = ([], some (.stub { msg := go "ledger unavailable" })) := by
  refine ⟨by decide, by decide, by decide, by decide⟩

/-- C12, amended. If some stored value does not decode as a `Lot`, `GetAllAssets`
returns an error and no slice, neither the records decoded before the
bad one nor those after it. If every stored value decodes, and the range
scan opens and advances without failure, `GetAllAssets` returns no
error. -/
theorem C12_fail_fast (ctx : Stub) :
    ((∃ kv ∈ ctx.state, (decodePair kv).2 ≠ none) →
      (GetAllAssets ctx).1.2 ≠ none ∧ (GetAllAssets ctx).1.1 = []) ∧
    ((∀ kv ∈ ctx.state, (decodePair kv).2 = none) → ctx.rangeErr = none →
      (∀ pos, ctx.nextErr pos = none) → (GetAllAssets ctx).1.2 = none) := by
  constructor
  · intro hbad
    have herr : (GetAllAssets ctx).1.2 ≠ none := by
      cases hr : ctx.rangeErr with
      | some e => rw [GetAllAssets_of_rangeErr ctx e hr]; simp
      | none =>
        rw [GetAllAssets_of_range ctx hr]
        exact getAllLoop_bad ctx ctx.state 0 [] hbad
    exact ⟨herr, GetAllAssets_failure ctx herr⟩
  · intro hall hr hnext
    rw [GetAllAssets_of_range ctx hr, getAllLoop_ok ctx hnext ctx.state 0 [] hall]

/-- Witness of C12: `faultyStub` holds a good record under `lot1` and bytes that
are not JSON under `lot3`; `twoLots` holds two good records. -/
theorem C12_fail_fast_witness :
    (∃ kv ∈ faultyStub.state, (decodePair kv).2 ≠ none) ∧
    (GetAllAssets faultyStub).1.2 ≠ none ∧ (GetAllAssets faultyStub).1.1 = [] ∧
    (∀ kv ∈ twoLots.state, (decodePair kv).2 = none) ∧
    (GetAllAssets twoLots).1.2 = none :=
  ⟨⟨(go "lot3", go "oops"), by decide, by decide⟩,
    ((C12_fail_fast faultyStub).1 ⟨(go "lot3", go "oops"), by decide, by decide⟩).1,
    ((C12_fail_fast faultyStub).1 ⟨(go "lot3", go "oops"), by decide, by decide⟩).2,
    by decide,
    (C12_fail_fast twoLots).2 (by decide) rfl (fun _ => rfl)⟩

/-- C13, as stated, fails on the code. The world state of `scanFailEmptyStub`
holds no pair, and `GetAllAssets` returns the error of the failed
`GetStateByRange`. -/
theorem C13_scan_failure_counterexample :
    scanFailEmptyStub.state = [] ∧
    (GetAllAssets scanFailEmptyStub).1
      = ([], some (.stub { msg := go "ledger unavailable" })) ∧
    (GetAllAssets scanFailEmptyStub).1.2 ≠ none := by
  refine ⟨rfl, by decide, by decide⟩

/-- C13, amended. On a world state without pairs `GetAllAssets` returns no error
and the empty slice when the range scan opens without failure, and the
error of `GetStateByRange` when it does not. -/
theorem C13_empty_store (ctx : Stub) (hempty : ctx.state = []) :
    (ctx.rangeErr = none → (GetAllAssets ctx).1 = ([], none)) ∧
    (∀ e, ctx.rangeErr = some e → (GetAllAssets ctx).1 = ([], some (.stub e))) := by
  constructor
  · intro hrange
    rw [GetAllAssets_of_range ctx hrange, hempty]
    rfl
  · intro e hrange
    rw [GetAllAssets_of_rangeErr ctx e hrange]

/-- Witness of C13: the empty stub, and the empty stub with a failing range
scan. -/
theorem C13_empty_store_witness :
    emptyStub.state = [] ∧ (GetAllAssets emptyStub).1 = ([], none) ∧
    scanFailEmptyStub.state = [] ∧
    (GetAllAssets scanFailEmptyStub).1
      = ([], some (.stub { msg := go "ledger unavailable" })) :=
  ⟨rfl, (C13_empty_store emptyStub rfl).1 rfl, rfl,
    (C13_empty_store scanFailEmptyStub rfl).2 { msg := go "ledger unavailable" } rfl⟩

/-- C14, as stated, fails on the code. Every value stored in `nextFailStub`
decodes as a `Lot` and the open-ended range scan holds two pairs, but the
second call of `Next` fails: `GetAllAssets` returns an error and no slice,
not one element per stored key. -/
theorem C14_scan_failure_counterexample :
    (∀ kv ∈ nextFailStub.state, (decodePair kv).2 = none) ∧
    (GetStateByRange nextFailStub (go "") (go "")).1.length = 2 ∧
    (GetAllAssets nextFailStub).1.2 ≠ none ∧
    (GetAllAssets nextFailStub).1.1.length = 0 ∧
    (GetAllAssets nextFailStub).1
      ≠ ((GetStateByRange nextFailStub (go "") (go "")).1.map (fun kv => (decodePair kv).1),
          none) := by
  refine ⟨by decide, by decide, by decide, by decide, by decide⟩

/-- C14, amended. When every stored value decodes and the range scan opens and
advances without failure, the slice `GetAllAssets` returns is the sequence
of pairs of the open-ended range scan (all stored pairs, in store key
order) mapped through the decoder: it has one element per pair and its
i-th element is the decoding of the value of the i-th pair. -/
theorem C14_order_and_content (ctx : Stub) (hrange : ctx.rangeErr = none)
    (hnext : ∀ pos, ctx.nextErr pos = none)
    (hall : ∀ kv ∈ ctx.state, (decodePair kv).2 = none) :
    (GetStateByRange ctx (go "") (go "")).1 = ctx.state ∧
    (GetAllAssets ctx).1
      = ((GetStateByRange ctx (go "") (go "")).1.map (fun kv => (decodePair kv).1), none) ∧
    (GetAllAssets ctx).1.1.length = ctx.state.length ∧
    (∀ i : Nat, (GetAllAssets ctx).1.1[i]?
      = ((GetStateByRange ctx (go "") (go "")).1[i]?).map (fun kv => (decodePair kv).1)) := by
  have hscan := GetStateByRange_all ctx hrange
  have hall1 : (GetAllAssets ctx).1 = (ctx.state.map (fun kv => (decodePair kv).1), none) := by
    rw [GetAllAssets_of_range ctx hrange, getAllLoop_ok ctx hnext ctx.state 0 [] hall]
    rfl
  rw [hscan, hall1]
  refine ⟨rfl, rfl, by simp, ?_⟩
  intro i
  simp

/-- Witness of C14: the two records of `twoLots`, in key order. -/
theorem C14_order_and_content_witness :
    twoLots.rangeErr = none ∧ (∀ pos, twoLots.nextErr pos = none) ∧
    (∀ kv ∈ twoLots.state, (decodePair kv).2 = none) ∧
    (GetAllAssets twoLots).1
      = ((GetStateByRange twoLots (go "") (go "")).1.map (fun kv => (decodePair kv).1), none) ∧
    (GetAllAssets twoLots).1.1.length = 2 :=
  ⟨rfl, fun _ => rfl, by decide,
    (C14_order_and_content twoLots rfl (fun _ => rfl) (by decide)).2.1, by decide⟩

/-- C15 (no deletion, `ID` kept). A key that holds a value before `CreateAsset`
or `TransferAsset` holds a value after it, and if the value before decodes
as a `Lot` the value after decodes as a `Lot` with the same `ID`;
`ReadAsset`, `AssetExists`, `GetAllAssets` and `InitLedger` leave the stub as
it was. -/
theorem C15_no_deletion_id_kept (ctx : Stub) (ID nfId : GoString)
    (lotProducts : List LotProduct) (Owner : GoString) (OwnerId : GoInt)
    (lotType createdAt : GoString) (total : GoInt) (formatedAddress : GoString)
    (id newOwner : GoString) (newOwnerId : GoInt) (key : GoString) (value : Bytes)
    (hkey : lookup key ctx.state = some value) :
    (∃ value1, lookup key (CreateAsset ctx ID nfId lotProducts Owner OwnerId lotType createdAt
        total formatedAddress).2.state = some value1 ∧ keepsID value value1) ∧
    (∃ value1, lookup key (TransferAsset ctx id newOwner newOwnerId).2.state = some value1 ∧
      keepsID value value1) ∧
    (ReadAsset ctx id).2 = ctx ∧ (AssetExists ctx id).2 = ctx ∧
    (GetAllAssets ctx).2 = ctx ∧ (InitLedger ctx).2 = ctx := by
  have hsame : keepsID value value := fun asset h => ⟨asset, h, rfl⟩
  refine ⟨?_, ?_, ReadAsset_stub ctx id, AssetExists_stub ctx id, GetAllAssets_stub ctx, rfl⟩
  · rcases CreateAsset_cases ctx ID nfId lotProducts Owner OwnerId lotType createdAt total
      formatedAddress with h | ⟨habs, h⟩
    · rw [h]; exact ⟨value, hkey, hsame⟩
    · have hne : key ≠ ID := by
        intro heq
        rw [heq, habs] at hkey
        simp at hkey
      rw [h]
      exact ⟨value, by rw [← hkey]; exact lookup_insert_of_ne _ _ _ _ hne, hsame⟩
  · rcases TransferAsset_cases ctx id newOwner newOwnerId with h | ⟨asset0, hread, -, h⟩
    · rw [h]; exact ⟨value, hkey, hsame⟩
    · rw [h]
      by_cases hne : key = id
      · subst hne
        obtain ⟨-, data, hl, hdec⟩ := ReadAsset_ok ctx key asset0 hread
        have hexp := exported_of_jsonUnmarshal data asset0 none hdec
        have hdata : data = value := by
          rw [hkey] at hl
          exact (Option.some.inj hl).symm
        subst hdata
        refine ⟨_, lookup_insert_self _ _ _, ?_⟩
        intro asset hasset
        have heq : asset = asset0 := by
          rw [hdec] at hasset
          exact (Prod.mk.inj hasset).1.symm
        subst heq
        have hid : toValid asset.ID = asset.ID := congrArg Lot.ID hexp
        exact ⟨_, jsonUnmarshal_jsonMarshal _, hid⟩
      · exact ⟨value, by rw [← hkey]; exact lookup_insert_of_ne _ _ _ _ hne, hsame⟩

/-- Witness of C15: the transfer of `lot1` on the world state left by
`sampleCreate` rewrites the value under `lot1`, and the new value decodes
with the `ID` of the old one. -/
theorem C15_no_deletion_id_kept_witness :
    lookup (go "lot1") sampleCreate.2.state = some (jsonMarshal sampleLot).1 ∧
    (jsonUnmarshal (jsonMarshal sampleLot).1 Lot.zero).2 = none ∧
    (TransferAsset sampleCreate.2 (go "lot1") (go "Alice") ⟨7, by decide⟩).1 = none ∧
    (∃ value1, lookup (go "lot1")
        (TransferAsset sampleCreate.2 (go "lot1") (go "Alice") ⟨7, by decide⟩).2.state = some value1
            ∧
      keepsID (jsonMarshal sampleLot).1 value1) :=
  ⟨by decide, by decide, by decide,
    (C15_no_deletion_id_kept sampleCreate.2 (go "lot2") (go "nf2") [] (go "Carol") ⟨2, by decide⟩
      (go "feed") (go "2021-02-02") ⟨5, by decide⟩ (go "Rua B") (go "lot1") (go "Alice")
      ⟨7, by decide⟩ (go "lot1") (jsonMarshal sampleLot).1 (by decide)).2.1⟩

/-- C18, as stated, fails on the code. The `ID` of `invalidLot` is the bytes
`61 ff 62`, of which `ff` is not valid UTF-8. Encoding the `Lot` succeeds and
writes the escape of U+FFFD for that byte; decoding the encoding
succeeds and gives the `ID` `61 ef bf bd 62`, which is not the `ID` of
`invalidLot`. -/
theorem C18_invalid_utf8_counterexample :
    (jsonMarshal invalidLot).2 = none ∧
    (jsonMarshal invalidLot).1
      = go "\x7b\"ID\":\"a\\ufffdb\",\"owner\":\"Bob\",\"ownerId\":1\x7d" ∧
    (jsonUnmarshal (jsonMarshal invalidLot).1 Lot.zero).2 = none ∧
    (jsonUnmarshal (jsonMarshal invalidLot).1 Lot.zero).1.ID = [97, 239, 191, 189, 98] ∧
    (jsonUnmarshal (jsonMarshal invalidLot).1 Lot.zero).1.ID ≠ invalidLot.ID := by
  refine ⟨rfl, by decide, by decide, by decide, by decide⟩

/-- C18, amended. Encoding a `Lot` never fails; decoding the encoding succeeds
and gives the `Lot` with the same `OwnerId`, with the `ID` and the `Owner` in
which each byte that is not part of valid UTF-8 is replaced by U+FFFD,
and with the zero value in `nfId`, `lotProducts`, `lotType`, `createdAt`, `total`
and `formatedAddress`; an `ID` or an `Owner` that is valid UTF-8 comes back as
it is; and the encoding does not change when the six lower-case fields
are replaced by any other values. -/
theorem C18_encoding_keeps_exported (asset : Lot) (nfId : GoString)
    (lotProducts : List LotProduct) (lotType createdAt : GoString) (total : GoInt)
    (formatedAddress : GoString) :
    (jsonMarshal asset).2 = none ∧
    jsonUnmarshal (jsonMarshal asset).1 Lot.zero =
      ({ ID := toValid asset.ID, nfId := [], lotProducts := [], Owner := toValid asset.Owner,
         OwnerId := asset.OwnerId, lotType := [], createdAt := [], total := GoInt.zero,
         formatedAddress := [] }, none) ∧
    (validString asset.ID = true → toValid asset.ID = asset.ID) ∧
    (validString asset.Owner = true → toValid asset.Owner = asset.Owner) ∧
    jsonMarshal
        { asset with
          nfId := nfId
          lotProducts := lotProducts
          lotType := lotType
          createdAt := createdAt
          total := total
          formatedAddress := formatedAddress }
      = jsonMarshal asset :=
  ⟨rfl, jsonUnmarshal_jsonMarshal asset, toValid_of_valid asset.ID,
    toValid_of_valid asset.Owner, rfl⟩

/-- Witness of C18: the `ID` and the `Owner` of `sampleLot` are valid UTF-8 and come
back as they are. -/
theorem C18_encoding_keeps_exported_witness :
    validString sampleLot.ID = true ∧ validString sampleLot.Owner = true ∧
    toValid sampleLot.ID = sampleLot.ID ∧ toValid sampleLot.Owner = sampleLot.Owner ∧
    jsonUnmarshal (jsonMarshal sampleLot).1 Lot.zero =
      ({ ID := toValid sampleLot.ID, nfId := [], lotProducts := [],
         Owner := toValid sampleLot.Owner, OwnerId := sampleLot.OwnerId, lotType := [],
         createdAt := [], total := GoInt.zero, formatedAddress := [] }, none) :=
  ⟨by decide, by decide,
    (C18_encoding_keeps_exported sampleLot [] [] [] [] GoInt.zero []).2.2.1 (by decide),
    (C18_encoding_keeps_exported sampleLot [] [] [] [] GoInt.zero []).2.2.2.1 (by decide),
    (C18_encoding_keeps_exported sampleLot [] [] [] [] GoInt.zero []).2.1⟩

/-- C19, as stated, fails on the code. On `pickyStub` `ReadAsset("lot1")` succeeds;
the stub accepts the record of the transfer to Alice and rejects the
record of the transfer to Dave. After `TransferAsset("lot1", "Alice", 7)`
followed by `TransferAsset("lot1", "Dave", 9)` the value under `lot1` is the
record with the owner Alice; after `TransferAsset("lot1", "Dave", 9)` alone it
is the record with the owner Bob, as before: the two stores differ. -/
theorem C19_rejected_write_counterexample :
    (ReadAsset pickyStub (go "lot1")).1 = (some sampleLot.exported, none) ∧
    (TransferAsset pickyStub (go "lot1") (go "Alice") ⟨7, by decide⟩).1 = none ∧
    (TransferAsset (TransferAsset pickyStub (go "lot1") (go "Alice") ⟨7, by decide⟩).2
        (go "lot1") (go "Dave") ⟨9, by decide⟩).1
      = some (.stub { msg := go "ledger unavailable" }) ∧
    lookup (go "lot1")
        (TransferAsset (TransferAsset pickyStub (go "lot1") (go "Alice") ⟨7, by decide⟩).2
          (go "lot1") (go "Dave") ⟨9, by decide⟩).2.state
      = some (jsonMarshal { sampleLot with Owner := go "Alice", OwnerId := ⟨7, by decide⟩ }).1 ∧
    lookup (go "lot1") (TransferAsset pickyStub (go "lot1") (go "Dave") ⟨9, by decide⟩).2.state
      = some (jsonMarshal sampleLot).1 ∧
    (TransferAsset (TransferAsset pickyStub (go "lot1") (go "Alice") ⟨7, by decide⟩).2
        (go "lot1") (go "Dave") ⟨9, by decide⟩).2.state
      ≠ (TransferAsset pickyStub (go "lot1") (go "Dave") ⟨9, by decide⟩).2.state := by
  refine ⟨by decide, by decide, by decide, by decide, by decide, by decide⟩

/-- C19, amended. When `ReadAsset(id)` returns a `Lot`: if the stub accepts the
write of the record of `(o2, n2)` under `id`, or rejects the write of the
record of `(o1, n1)`, the stub after `TransferAsset(id, o1, n1)` followed by
`TransferAsset(id, o2, n2)` is the stub after `TransferAsset(id, o2, n2)` alone;
if it accepts the first write and rejects the second, the sequence leaves
the record of `(o1, n1)` under `id` while `TransferAsset(id, o2, n2)` alone
leaves the stub as it was; and in every case the same transfer applied
twice leaves the stub of applying it once. -/
theorem C19_transfer_last_writer_wins (ctx : Stub) (id : GoString) (asset : Lot)
    (o1 : GoString) (n1 : GoInt) (o2 : GoString) (n2 : GoInt)
    (hread : (ReadAsset ctx id).1 = (some asset, none)) :
    ((ctx.putErr id (jsonMarshal { asset with Owner := o2, OwnerId := n2 }).1 = none ∨
        ctx.putErr id (jsonMarshal { asset with Owner := o1, OwnerId := n1 }).1 ≠ none) →
      (TransferAsset (TransferAsset ctx id o1 n1).2 id o2 n2).2
        = (TransferAsset ctx id o2 n2).2) ∧
    (ctx.putErr id (jsonMarshal { asset with Owner := o1, OwnerId := n1 }).1 = none →
      ctx.putErr id (jsonMarshal { asset with Owner := o2, OwnerId := n2 }).1 ≠ none →
      (TransferAsset (TransferAsset ctx id o1 n1).2 id o2 n2).2
        = { ctx with
            state := insert id (jsonMarshal { asset with Owner := o1, OwnerId := n1 }).1
              ctx.state } ∧
      (TransferAsset ctx id o2 n2).2 = ctx) ∧
    (TransferAsset (TransferAsset ctx id o2 n2).2 id o2 n2).2
      = (TransferAsset ctx id o2 n2).2 := by
  obtain ⟨hget, data, -, hdec⟩ := ReadAsset_ok ctx id asset hread
  have hexp : asset.exported = asset := exported_of_jsonUnmarshal data asset none hdec
  have hread1 : ∀ (o : GoString) (n : GoInt),
      (ReadAsset { ctx with
          state := insert id (jsonMarshal { asset with Owner := o, OwnerId := n }).1
            ctx.state } id).1
        = (some { asset with Owner := toValid o, OwnerId := n }, none) := by
    intro o n
    rw [ReadAsset_written ctx id _ hget, exported_with_owner asset o n hexp]
  have hok : ∀ (o : GoString) (n : GoInt),
      ctx.putErr id (jsonMarshal { asset with Owner := o, OwnerId := n }).1 = none →
      ctx.putErr id (jsonMarshal { asset with Owner := o2, OwnerId := n2 }).1 = none →
      TransferAsset (TransferAsset ctx id o n).2 id o2 n2 = TransferAsset ctx id o2 n2 := by
    intro o n h1 h2
    rw [TransferAsset_written ctx id asset o n hread h1,
      TransferAsset_written _ id _ o2 n2 (hread1 o n) h2,
      TransferAsset_written ctx id asset o2 n2 hread h2]
    simp only [insert_insert]
  have hbad : ∀ (o : GoString) (n : GoInt),
      ctx.putErr id (jsonMarshal { asset with Owner := o, OwnerId := n }).1 = none →
      ctx.putErr id (jsonMarshal { asset with Owner := o2, OwnerId := n2 }).1 ≠ none →
      (TransferAsset (TransferAsset ctx id o n).2 id o2 n2).2
        = { ctx with
            state := insert id (jsonMarshal { asset with Owner := o, OwnerId := n }).1
              ctx.state } := by
    intro o n h1 h2
    rw [TransferAsset_written ctx id asset o n hread h1]
    exact TransferAsset_stub_of_rejected _ id _ o2 n2 (hread1 o n) h2
  refine ⟨?_, ?_, ?_⟩
  · intro h
    cases h1 : ctx.putErr id (jsonMarshal { asset with Owner := o1, OwnerId := n1 }).1 with
    | some e =>
      rw [TransferAsset_rejected ctx id asset o1 n1 e hread h1]
    | none =>
      rcases h with h2 | h2
      · rw [hok o1 n1 h1 h2]
      · exact absurd h1 h2
  · intro h1 h2
    exact ⟨hbad o1 n1 h1 h2, TransferAsset_stub_of_rejected ctx id asset o2 n2 hread h2⟩
  · cases h2 : ctx.putErr id (jsonMarshal { asset with Owner := o2, OwnerId := n2 }).1 with
    | some e =>
      rw [TransferAsset_rejected ctx id asset o2 n2 e hread h2]
      exact congrArg Prod.snd (TransferAsset_rejected ctx id asset o2 n2 e hread h2)
    | none => rw [hok o2 n2 h2 h2]

/-- Witness of C19: transferring `lot1` to Alice and then to Dave, on the world
state left by `sampleCreate`, which accepts every write, and on `pickyStub`,
which rejects the record of the transfer to Dave. -/
theorem C19_transfer_last_writer_wins_witness :
    (ReadAsset sampleCreate.2 (go "lot1")).1 = (some sampleLot.exported, none) ∧
    (TransferAsset (TransferAsset sampleCreate.2 (go "lot1") (go "Alice") ⟨7, by decide⟩).2
        (go "lot1") (go "Dave") ⟨9, by decide⟩).2
      = (TransferAsset sampleCreate.2 (go "lot1") (go "Dave") ⟨9, by decide⟩).2 ∧
    (ReadAsset pickyStub (go "lot1")).1 = (some sampleLot.exported, none) ∧
    (TransferAsset pickyStub (go "lot1") (go "Dave") ⟨9, by decide⟩).2 = pickyStub ∧
    (TransferAsset (TransferAsset pickyStub (go "lot1") (go "Dave") ⟨9, by decide⟩).2
        (go "lot1") (go "Dave") ⟨9, by decide⟩).2
      = (TransferAsset pickyStub (go "lot1") (go "Dave") ⟨9, by decide⟩).2 :=
  ⟨by decide,
    (C19_transfer_last_writer_wins sampleCreate.2 (go "lot1") sampleLot.exported (go "Alice")
      ⟨7, by decide⟩ (go "Dave") ⟨9, by decide⟩ (by decide)).1 (Or.inl rfl),
    by decide,
    ((C19_transfer_last_writer_wins pickyStub (go "lot1") sampleLot.exported (go "Alice")
      ⟨7, by decide⟩ (go "Dave") ⟨9, by decide⟩ (by decide)).2.1 (by decide) (by decide)).2,
    (C19_transfer_last_writer_wins pickyStub (go "lot1") sampleLot.exported (go "Alice")
      ⟨7, by decide⟩ (go "Dave") ⟨9, by decide⟩ (by decide)).2.2⟩

/-- C16 (store failures are not swallowed). A failing `GetState` makes
`CreateAsset`, `ReadAsset`, `AssetExists` and `TransferAsset` return an error; a
failing `PutState` makes `CreateAsset` and `TransferAsset` return that error; a
failing `GetStateByRange` or a failing `Next` makes `GetAllAssets` return an
error and no slice. In every case the stub after the call is the stub
before it: nothing is written after the failed call. -/
theorem C16_store_failures_surface (ctx : Stub) (ID nfId : GoString)
    (lotProducts : List LotProduct) (Owner : GoString) (OwnerId : GoInt)
    (lotType createdAt : GoString) (total : GoInt) (formatedAddress : GoString)
    (id newOwner : GoString) (newOwnerId : GoInt) :
    (∀ e, ctx.getErr ID = some e →
      CreateAsset ctx ID nfId lotProducts Owner OwnerId lotType createdAt total formatedAddress
        = (some (.errorf (go "failed to read from world state: " ++ e.msg)), ctx)) ∧
    (∀ e, ctx.getErr id = some e →
      ReadAsset ctx id
        = ((none, some (.errorf (go "failed to read from world state: " ++ e.msg))), ctx) ∧
      AssetExists ctx id
        = ((false, some (.errorf (go "failed to read from world state: " ++ e.msg))), ctx) ∧
      TransferAsset ctx id newOwner newOwnerId
        = (some (.errorf (go "failed to read from world state: " ++ e.msg)), ctx)) ∧
    (∀ e, ctx.getErr ID = none → lookup ID ctx.state = none →
      ctx.putErr ID (jsonMarshal (mkLot ID nfId lotProducts Owner OwnerId lotType createdAt
        total formatedAddress)).1 = some e →
      CreateAsset ctx ID nfId lotProducts Owner OwnerId lotType createdAt total formatedAddress
        = (some (.stub e), ctx)) ∧
    (∀ asset e, (ReadAsset ctx id).1 = (some asset, none) →
      ctx.putErr id (jsonMarshal { asset with Owner := newOwner, OwnerId := newOwnerId }).1
        = some e →
      TransferAsset ctx id newOwner newOwnerId = (some (.stub e), ctx)) ∧
    (∀ e, ctx.rangeErr = some e → GetAllAssets ctx = (([], some (.stub e)), ctx)) ∧
    ((∃ i, i < ctx.state.length ∧ ctx.nextErr i ≠ none) →
      (GetAllAssets ctx).1.2 ≠ none ∧ (GetAllAssets ctx).1.1 = [] ∧
        (GetAllAssets ctx).2 = ctx) := by
  refine ⟨?_, ?_, ?_, ?_, ?_, ?_⟩
  · intro e he
    exact CreateAsset_of_getErr _ _ _ _ _ _ _ _ _ _ e he
  · intro e he
    have hr := ReadAsset_of_getErr ctx id e he
    refine ⟨hr, AssetExists_of_getErr ctx id e he, ?_⟩
    exact TransferAsset_of_readErr ctx id newOwner newOwnerId none _ (by rw [hr])
  · intro e hget habs hput
    rw [CreateAsset_of_absent _ _ _ _ _ _ _ _ _ _ hget habs, PutState_of_err _ _ _ e hput]
    rfl
  · intro asset e hread hput
    rw [TransferAsset_of_read ctx id asset newOwner newOwnerId hread,
      PutState_of_err _ _ _ e hput]
    rfl
  · intro e he
    exact GetAllAssets_of_rangeErr ctx e he
  · intro hnext
    have herr : (GetAllAssets ctx).1.2 ≠ none := by
      cases hr : ctx.rangeErr with
      | some e => rw [GetAllAssets_of_rangeErr ctx e hr]; simp
      | none =>
        rw [GetAllAssets_of_range ctx hr]
        apply getAllLoop_nextErr ctx ctx.state 0 []
        obtain ⟨i, hi, hbad⟩ := hnext
        exact ⟨i, hi, by rw [Nat.zero_add]; exact hbad⟩
    exact ⟨herr, GetAllAssets_failure ctx herr, GetAllAssets_stub ctx⟩

/-- Witness of C16: a failing `GetState` under `lot1`; a failing `PutState` met by
`CreateAsset("lot2", ...)` and by `TransferAsset("lot1", ...)`; a failing
`GetStateByRange`; a failing second `Next`. -/
theorem C16_store_failures_surface_witness :
    ReadAsset getFailStub (go "lot1")
      = ((none, some (.errorf (go "failed to read from world state: " ++ go "ledger unavailable"))),
          getFailStub) ∧
    CreateAsset faultyStub (go "lot2") (go "nf2") [] (go "Carol") ⟨2, by decide⟩ (go "feed")
      (go "2021-02-02") ⟨5, by decide⟩ (go "Rua B")
      = (some (.stub { msg := go "ledger unavailable" }), faultyStub) ∧
    TransferAsset faultyStub (go "lot1") (go "Alice") ⟨7, by decide⟩
      = (some (.stub { msg := go "ledger unavailable" }), faultyStub) ∧
    GetAllAssets scanFailStub
      = (([], some (.stub { msg := go "ledger unavailable" })), scanFailStub) ∧
    (GetAllAssets nextFailStub).1.2 ≠ none ∧ (GetAllAssets nextFailStub).1.1 = [] :=
  ⟨((C16_store_failures_surface getFailStub (go "lot2") (go "nf2") [] (go "Carol") ⟨2, by decide⟩
      (go "feed") (go "2021-02-02") ⟨5, by decide⟩ (go "Rua B") (go "lot1") (go "Alice")
      ⟨7, by decide⟩).2.1 { msg := go "ledger unavailable" } rfl).1,
    (C16_store_failures_surface faultyStub (go "lot2") (go "nf2") [] (go "Carol") ⟨2, by decide⟩
      (go "feed") (go "2021-02-02") ⟨5, by decide⟩ (go "Rua B") (go "lot1") (go "Alice")
      ⟨7, by decide⟩).2.2.1 { msg := go "ledger unavailable" } (by decide) (by decide) rfl,
    (C16_store_failures_surface faultyStub (go "lot2") (go "nf2") [] (go "Carol") ⟨2, by decide⟩
      (go "feed") (go "2021-02-02") ⟨5, by decide⟩ (go "Rua B") (go "lot1") (go "Alice")
      ⟨7, by decide⟩).2.2.2.1 sampleLot.exported { msg := go "ledger unavailable" } (by decide) rfl,
    (C16_store_failures_surface scanFailStub (go "lot2") (go "nf2") [] (go "Carol") ⟨2, by decide⟩
      (go "feed") (go "2021-02-02") ⟨5, by decide⟩ (go "Rua B") (go "lot1") (go "Alice")
      ⟨7, by decide⟩).2.2.2.2.1 { msg := go "ledger unavailable" } rfl,
    ((C16_store_failures_surface nextFailStub (go "lot2") (go "nf2") [] (go "Carol") ⟨2, by decide⟩
      (go "feed") (go "2021-02-02") ⟨5, by decide⟩ (go "Rua B") (go "lot1") (go "Alice")
      ⟨7, by decide⟩).2.2.2.2.2 ⟨1, by decide, by decide⟩).1,
    ((C16_store_failures_surface nextFailStub (go "lot2") (go "nf2") [] (go "Carol") ⟨2, by decide⟩
      (go "feed") (go "2021-02-02") ⟨5, by decide⟩ (go "Rua B") (go "lot1") (go "Alice")
      ⟨7, by decide⟩).2.2.2.2.2 ⟨1, by decide, by decide⟩).2.1⟩

theorem alreadyExists_mentions (id : GoString) :
    ∃ m, (alreadyExists id).message = some m ∧ id <:+: m :=
  ⟨_, rfl, ⟨go "the asset ", go " already exists", rfl⟩⟩

theorem notFound_mentions (id : GoString) :
    ∃ m, (notFound id).message = some m ∧ id <:+: m :=
  ⟨_, rfl, ⟨go "the asset ", go " does not exist", rfl⟩⟩

/-- C17, as stated, fails on the code. With a failing `GetState`, `ReadAsset("lot1")`
returns an error whose message is `failed to read from world state: ledger
unavailable`; with a failing `PutState`, `TransferAsset("lot1", ...)` returns the
error of the stub itself, with the message `ledger unavailable`. Neither
message contains `lot1`. -/
theorem C17_messages_counterexample :
    (ReadAsset getFailStub (go "lot1")).1.2
      = some (.errorf (go "failed to read from world state: ledger unavailable")) ∧
    (GoError.errorf (go "failed to read from world state: ledger unavailable")).message
      = some (go "failed to read from world state: ledger unavailable") ∧
    ¬ (go "lot1" <:+: go "failed to read from world state: ledger unavailable") ∧
    (TransferAsset faultyStub (go "lot1") (go "Alice") ⟨7, by decide⟩).1
      = some (.stub { msg := go "ledger unavailable" }) ∧
    (GoError.stub { msg := go "ledger unavailable" }).message = some (go "ledger unavailable") ∧
    ¬ (go "lot1" <:+: go "ledger unavailable") := by
  refine ⟨by decide, rfl, by decide, by decide, rfl, by decide⟩

/-- C17, amended. The already-exists error of `CreateAsset` and the not-found
error of `ReadAsset` and `TransferAsset` contain the id in their message. A
failure of `GetState` is returned as an error whose message is `failed to
read from world state: ` followed by the message of the stub; a failure
of `PutState` and an error of the JSON decoder are returned as they are. -/
theorem C17_messages (ctx : Stub) (ID nfId : GoString) (lotProducts : List LotProduct)
    (Owner : GoString) (OwnerId : GoInt) (lotType createdAt : GoString) (total : GoInt)
    (formatedAddress : GoString) (id newOwner : GoString) (newOwnerId : GoInt) :
    (ctx.getErr ID = none → (∃ value, lookup ID ctx.state = some value) →
      (CreateAsset ctx ID nfId lotProducts Owner OwnerId lotType createdAt total
        formatedAddress).1 = some (alreadyExists ID) ∧
      ∃ m, (alreadyExists ID).message = some m ∧ ID <:+: m) ∧
    (ctx.getErr id = none → lookup id ctx.state = none →
      (ReadAsset ctx id).1.2 = some (notFound id) ∧
      (TransferAsset ctx id newOwner newOwnerId).1 = some (notFound id) ∧
      ∃ m, (notFound id).message = some m ∧ id <:+: m) ∧
    (∀ e, ctx.getErr ID = some e →
      (CreateAsset ctx ID nfId lotProducts Owner OwnerId lotType createdAt total
        formatedAddress).1 = some (.errorf (go "failed to read from world state: " ++ e.msg))) ∧
    (∀ e, ctx.getErr id = some e →
      (ReadAsset ctx id).1.2 = some (.errorf (go "failed to read from world state: " ++ e.msg)) ∧
      (AssetExists ctx id).1.2 = some (.errorf (go "failed to read from world state: " ++ e.msg)) ∧
      (TransferAsset ctx id newOwner newOwnerId).1
        = some (.errorf (go "failed to read from world state: " ++ e.msg))) ∧
    (∀ e, ctx.getErr ID = none → lookup ID ctx.state = none →
      ctx.putErr ID (jsonMarshal (mkLot ID nfId lotProducts Owner OwnerId lotType createdAt
        total formatedAddress)).1 = some e →
      (CreateAsset ctx ID nfId lotProducts Owner OwnerId lotType createdAt total
        formatedAddress).1 = some (.stub e)) ∧
    (∀ asset e, (ReadAsset ctx id).1 = (some asset, none) →
      ctx.putErr id (jsonMarshal { asset with Owner := newOwner, OwnerId := newOwnerId }).1
        = some e →
      (TransferAsset ctx id newOwner newOwnerId).1 = some (.stub e)) ∧
    (∀ data asset err, ctx.getErr id = none → lookup id ctx.state = some data →
      jsonUnmarshal data Lot.zero = (asset, some err) →
      (ReadAsset ctx id).1.2 = some err ∧
      (TransferAsset ctx id newOwner newOwnerId).1 = some err) := by
  refine ⟨?_, ?_, ?_, ?_, ?_, ?_, ?_⟩
  · rintro hget ⟨value, hv⟩
    rw [CreateAsset_of_present _ _ _ _ _ _ _ _ _ _ hget (by simp [hv])]
    exact ⟨rfl, alreadyExists_mentions ID⟩
  · intro hget habs
    have hr := ReadAsset_of_absent ctx id hget habs
    refine ⟨by rw [hr], ?_, notFound_mentions id⟩
    rw [TransferAsset_of_readErr ctx id newOwner newOwnerId none (notFound id) (by rw [hr])]
  · intro e he
    rw [CreateAsset_of_getErr _ _ _ _ _ _ _ _ _ _ e he]
  · intro e he
    have hr := ReadAsset_of_getErr ctx id e he
    refine ⟨by rw [hr], by rw [AssetExists_of_getErr ctx id e he], ?_⟩
    rw [TransferAsset_of_readErr ctx id newOwner newOwnerId none _ (by rw [hr])]
  · intro e hget habs hput
    rw [CreateAsset_of_absent _ _ _ _ _ _ _ _ _ _ hget habs, PutState_of_err _ _ _ e hput]
    rfl
  · intro asset e hread hput
    rw [TransferAsset_of_read ctx id asset newOwner newOwnerId hread,
      PutState_of_err _ _ _ e hput]
    rfl
  · intro data asset err hget hl hdec
    have hr : (ReadAsset ctx id).1 = (none, some err) := by
      rw [ReadAsset_of_present ctx id data hget hl, hdec]
    refine ⟨by rw [hr], ?_⟩
    rw [TransferAsset_of_readErr ctx id newOwner newOwnerId none err hr]

/-- Witness of C17: an occupied key, a free key, a failing `GetState`, a failing
`PutState` and a value that is not JSON. -/
theorem C17_messages_witness :
    (CreateAsset twoLots (go "lot1") (go "nf2") [] (go "Carol") ⟨2, by decide⟩ (go "feed")
      (go "2021-02-02") ⟨5, by decide⟩ (go "Rua B")).1 = some (alreadyExists (go "lot1")) ∧
    (ReadAsset twoLots (go "lot9")).1.2 = some (notFound (go "lot9")) ∧
    (ReadAsset getFailStub (go "lot1")).1.2
      = some (.errorf (go "failed to read from world state: " ++ go "ledger unavailable")) ∧
    (CreateAsset faultyStub (go "lot2") (go "nf2") [] (go "Carol") ⟨2, by decide⟩ (go "feed")
      (go "2021-02-02") ⟨5, by decide⟩ (go "Rua B")).1
      = some (.stub { msg := go "ledger unavailable" }) ∧
    (TransferAsset faultyStub (go "lot1") (go "Alice") ⟨7, by decide⟩).1
      = some (.stub { msg := go "ledger unavailable" }) ∧
    (ReadAsset faultyStub (go "lot3")).1.2 = some (.json .syntaxError) :=
  ⟨((C17_messages twoLots (go "lot1") (go "nf2") [] (go "Carol") ⟨2, by decide⟩ (go "feed")
      (go "2021-02-02") ⟨5, by decide⟩ (go "Rua B") (go "lot9") (go "Alice") ⟨7, by decide⟩).1 rfl
      ⟨(jsonMarshal sampleLot).1, by decide⟩).1,
    ((C17_messages twoLots (go "lot1") (go "nf2") [] (go "Carol") ⟨2, by decide⟩ (go "feed")
      (go "2021-02-02") ⟨5, by decide⟩ (go "Rua B") (go "lot9") (go "Alice") ⟨7, by decide⟩).2.1 rfl
      (by decide)).1,
    ((C17_messages getFailStub (go "lot1") (go "nf2") [] (go "Carol") ⟨2, by decide⟩ (go "feed")
      (go "2021-02-02") ⟨5, by decide⟩ (go "Rua B") (go "lot1") (go "Alice") ⟨7, by decide⟩).2.2.2.1
      { msg := go "ledger unavailable" } rfl).1,
    (C17_messages faultyStub (go "lot2") (go "nf2") [] (go "Carol") ⟨2, by decide⟩ (go "feed")
      (go "2021-02-02") ⟨5, by decide⟩ (go "Rua B") (go "lot1") (go "Alice")
      ⟨7, by decide⟩).2.2.2.2.1 { msg := go "ledger unavailable" } (by decide) (by decide) rfl,
    (C17_messages faultyStub (go "lot2") (go "nf2") [] (go "Carol") ⟨2, by decide⟩ (go "feed")
      (go "2021-02-02") ⟨5, by decide⟩ (go "Rua B") (go "lot1") (go "Alice")
      ⟨7, by decide⟩).2.2.2.2.2.1 sampleLot.exported { msg := go "ledger unavailable" } (by decide)
      rfl,
    ((C17_messages faultyStub (go "lot2") (go "nf2") [] (go "Carol") ⟨2, by decide⟩ (go "feed")
      (go "2021-02-02") ⟨5, by decide⟩ (go "Rua B") (go "lot3") (go "Alice")
      ⟨7, by decide⟩).2.2.2.2.2.2 (go "oops") Lot.zero (.json .syntaxError) (by decide) (by decide)
      (by decide)).1⟩

end Eumostro
